import Mathlib

/-!
# Verification of the Semantic Architect discovery-and-consolidation pipeline

A shallow embedding, in Lean 4, of the core pipeline of the
`semantic-architect-v1` repository:

* `src/utils/markdownCleaner.ts` — `cleanMarkdown`
* `src/utils/graphCleaner.ts` — `cleanKnowledgeGraph`, `getCleaningStats`
* `src/services/processingService.ts` — `parseMarkdownQueryList`,
  `truncateContentByTokens`, `getUrls`, `scrapeContent`,
  `extractKnowledgeGraphs`, `consolidateKnowledgeGraph`, `findNodeKey`,
  `generateTopicalMap`, `processTopicalMap`

Modelling conventions:

* JavaScript strings are modelled by Lean `String` (a list of characters);
  `length`, `substring` and friends count characters, which agrees with
  JS UTF-16 lengths on the material handled here.
* JS `number` values that carry scores / edge weights are modelled by `ℚ`
  (exact arithmetic; the source only compares and adds small decimals).
* External API calls (`apiService.*`), wall-clock time and the cancellation
  closure `isCancelled` are inputs of the model, collected in `ApiEnv`:
  each call site reads the corresponding oracle.  Fallible calls return
  `Except String α`, an `Error` being identified with its message as in the
  TypeScript `error.message` checks.
* Effects are sequenced by the explicit type `Proc α`, which threads the
  number of cancellation polls performed so far and accumulates the log
  entries emitted by `addLog` (level and message; the source's counter and
  timestamp based `id` field is real-time data outside the model).
-/

/-! ## JavaScript string primitives -/

/-- JS `String.prototype.toLowerCase` (ASCII-faithful). -/
def jsToLower (s : String) : String :=
  String.mk (s.data.map Char.toLower)

/-- JS `String.prototype.trim`: drop whitespace from both ends (ASCII
whitespace; JS additionally strips some exotic Unicode spaces, which do
not occur in the material handled here). -/
def jsTrim (s : String) : String :=
  String.mk
    (((s.data.dropWhile Char.isWhitespace).reverse.dropWhile
        Char.isWhitespace).reverse)

/-- Split a character list at every newline; like JS `split`, the result
always has one more part than there are separators (so it is never
empty). -/
def splitOnNewline : List Char → List (List Char)
  | [] => [[]]
  | c :: cs =>
    match splitOnNewline cs with
    | [] => [[c]]
    | h :: t => if c = '\n' then [] :: h :: t else (c :: h) :: t

/-- JS `str.split('\n')`. -/
def jsSplitLines (s : String) : List String :=
  (splitOnNewline s.data).map String.mk

/-- JS `String.prototype.substring(start, stop)` on in-range arguments. -/
def jsSubstring (s : String) (start stop : Nat) : String :=
  String.mk ((s.data.take stop).drop start)

/-- JS `a.includes(b)` (substring containment). -/
def jsIncludes (s sub : String) : Bool :=
  s.data.tails.any (fun t => sub.data.isPrefixOf t)

/-- JS `String.prototype.length`. -/
def jsLength (s : String) : Nat :=
  s.data.length

/-- Helper for `lastIndexOf`: scan from position `i`, preferring matches
further right. -/
def lastIndexOfAux (c : Char) : List Char → Nat → Int
  | [], _ => -1
  | x :: xs, i =>
    let r := lastIndexOfAux c xs (i + 1)
    if r ≠ -1 then r else if x = c then (i : Int) else -1

/-- JS `str.lastIndexOf(c)`: index of the rightmost occurrence of the
character `c`, `-1` when absent. -/
def jsLastIndexOf (s : String) (c : Char) : Int :=
  lastIndexOfAux c s.data 0

/-- First-seen-order deduplication, the model of `[...new Set(xs)]`. -/
def dedupFirstSeen : List String → List String
  | [] => []
  | x :: xs => x :: (dedupFirstSeen (xs.filter (· ≠ x)))
termination_by l => l.length
decreasing_by
  exact Nat.lt_succ_of_le (List.length_filter_le _ _)

/-! ## Data model (`src/types/index.ts`) -/

/-- `KnowledgeGraphNode` of `src/types/index.ts`.  `properties` maps string
keys to values; the value type is irrelevant to the claims and is modelled
by `String`. -/
structure KnowledgeGraphNode where
  id : String
  label : String
  type : String
  properties : List (String × String)
deriving DecidableEq, Repr

/-- `KnowledgeGraphEdge` of `src/types/index.ts`.  The weight is optional in
the model (`none` = the JSON field was absent / `undefined`), so that the
source's `edge.weight || 1` default is representable. -/
structure KnowledgeGraphEdge where
  source : String
  target : String
  relationship : String
  weight : Option ℚ
deriving DecidableEq, Repr

/-- `KnowledgeGraph` of `src/types/index.ts`.  The interface declares both
fields as present; the source's defensive `!rawGraph.nodes` /
`fragment.nodes ?` checks are dead under this typing and noted at the
corresponding definitions. -/
structure KnowledgeGraph where
  nodes : List KnowledgeGraphNode
  edges : List KnowledgeGraphEdge
deriving DecidableEq, Repr

/-! ## Graph noise filter (`src/utils/graphCleaner.ts`) -/

/-- `excludedNodeTypes` of `graphCleaner.ts`, verbatim. -/
def excludedNodeTypes : List String :=
  ["Cookie", "Cookie Category", "Service", "Consent Management Platform",
   "Action", "Feature", "Document", "Language", "Navigation", "Menu",
   "Button", "Link", "Form", "Input", "Page Element", "Web Component",
   "UI Element"]

/-- `excludedNodeLabels` of `graphCleaner.ts`, verbatim. -/
def excludedNodeLabels : List String :=
  ["Amazon", "Google", "Meta Platforms, Inc.", "Meta Platforms", "Meta",
   "Facebook", "Microsoft", "Apple", "Adobe",
   "Edrone", "Cookiebot", "Google Analytics", "Google Tag Manager",
   "PrestaShop", "WordPress", "Magento", "Shopify", "WooCommerce",
   "PayPal", "Stripe", "Vuex", "React", "Angular", "jQuery",
   "Zarejestruj się", "Zaloguj się", "Zaloguj", "Logowanie", "Rejestracja",
   "Koszyk", "Dodaj do koszyka", "Kup teraz", "Zamów", "Kontakt", "O nas",
   "Regulamin", "Polityka prywatności", "Polityka prywatności i cookies",
   "Cookies", "RODO", "GDPR", "Warunki użytkowania", "Mapa strony",
   "Sitemap", "Newsletter", "Subskrypcja", "FAQ", "Pomoc", "Wsparcie",
   "Support", "Blog", "Aktualności", "News", "Promocje", "Rabaty",
   "Oferta specjalna",
   "polski", "Polska", "English", "Poland", "język polski", "polszczyzna",
   "_ga", "_gid", "_gat", "_fbp", "PHPSESSID", "JSESSIONID", "session_id",
   "csrf_token", "xsrf_token", "_csrf", "cookieconsent_status",
   "cookie_consent",
   "Menu", "Navigation", "Footer", "Header", "Sidebar", "Search", "Szukaj",
   "Filter", "Filtr", "Sort", "Sortuj", "Login", "Register", "Cart",
   "Checkout"]

/-- The node predicate of `cleanKnowledgeGraph`'s `filter` callback:
`true` exactly when the node survives the noise filter. -/
def nodeAllowed (node : KnowledgeGraphNode) : Bool :=
  if excludedNodeTypes.contains node.type then false
  else
    let nodeLabel := jsTrim (jsToLower node.label)
    if excludedNodeLabels.any (fun excludedLabel =>
        nodeLabel = jsToLower excludedLabel ||
        jsIncludes nodeLabel (jsToLower excludedLabel)) then false
    else if jsLength nodeLabel ≤ 1 then false
    else if jsIncludes nodeLabel "_" && jsLength nodeLabel < 10 then false
    else true

/-- `cleanKnowledgeGraph` of `graphCleaner.ts`.  The `!rawGraph ||
!rawGraph.nodes` guard of the source is unrepresentable under the typed
model (both fields are always present) and therefore dead. -/
def cleanKnowledgeGraph (rawGraph : KnowledgeGraph) : KnowledgeGraph :=
  let allowedNodes := rawGraph.nodes.filter nodeAllowed
  let allowedNodeIds := allowedNodes.map (fun node => node.id)
  let allowedEdges := rawGraph.edges.filter (fun edge =>
    allowedNodeIds.contains edge.source && allowedNodeIds.contains edge.target)
  { nodes := allowedNodes, edges := allowedEdges }

/-- The record returned by `getCleaningStats`. -/
structure CleaningStats where
  nodesRemoved : Int
  edgesRemoved : Int
  nodesKept : Nat
  edgesKept : Nat
  nodesFilteredPercent : Int
  edgesFilteredPercent : Int
deriving DecidableEq, Repr

/-- `getCleaningStats` of `graphCleaner.ts` (`Math.round` is half-up
rounding, Mathlib's `round`). -/
def getCleaningStats (originalGraph cleanedGraph : KnowledgeGraph) : CleaningStats :=
  let originalNodes := originalGraph.nodes.length
  let originalEdges := originalGraph.edges.length
  let cleanedNodes := cleanedGraph.nodes.length
  let cleanedEdges := cleanedGraph.edges.length
  { nodesRemoved := (originalNodes : Int) - cleanedNodes
    edgesRemoved := (originalEdges : Int) - cleanedEdges
    nodesKept := cleanedNodes
    edgesKept := cleanedEdges
    nodesFilteredPercent :=
      if 0 < originalNodes then
        round ((((originalNodes : ℚ) - cleanedNodes) / originalNodes) * 100)
      else 0
    edgesFilteredPercent :=
      if 0 < originalEdges then
        round ((((originalEdges : ℚ) - cleanedEdges) / originalEdges) * 100)
      else 0 }

/-! ## Content cleaner (`src/utils/markdownCleaner.ts`) -/

/-- Count of leading characters satisfying `p`. -/
def countLeading (p : Char → Bool) : List Char → Nat
  | [] => 0
  | c :: cs => if p c then countLeading p cs + 1 else 0

/-- The Atx test of `cleanMarkdown`: whether the (already trimmed) line
matches `/^(#{1,3})\s+(.+)/`.  Since the line carries no trailing
whitespace, the regex matches exactly when the leading `#`-run has length
1 to 3 and is followed by a whitespace character (the trimmed line then
necessarily ends in a further non-whitespace character). -/
def isAtxHeading (trimmedLine : String) : Bool :=
  let l := trimmedLine.data
  let k := countLeading (· = '#') l
  1 ≤ k && k ≤ 3 &&
    (match l.drop k with
     | [] => false
     | c :: _ => c.isWhitespace)

/-- The Setext underline test of `cleanMarkdown`: the next line, trimmed,
is nonempty (JS truthiness) and matches `/^=+$/` or `/^-+$/`. -/
def isSetextUnderline (nextLine : String) : Bool :=
  let t := (jsTrim nextLine).data
  t ≠ [] && (t.all (· = '=') || t.all (· = '-'))

/-- The "save previous block if it was valid" step of `cleanMarkdown`. -/
def flushBlock (cleanedBlocks currentBlock : List String)
    (isInValidSection : Bool) : List String :=
  if isInValidSection && currentBlock ≠ [] then
    cleanedBlocks ++ [jsTrim (String.intercalate "\n" currentBlock)]
  else cleanedBlocks

/-- The line scan of `cleanMarkdown`: walks the split lines carrying the
accumulated `cleanedBlocks`, the open `currentBlock` and the
`isInValidSection` flag, and returns the final list of (trimmed, joined)
blocks.  A Setext hit consumes the underline line as well (`i++`); an Atx
hit takes priority, exactly as in the source's `if/else if`.  The
lookahead (`i < lines.length - 1`) is realized by the two-element
pattern: a final line has no underline to inspect. -/
def cleanMarkdownScan : List String → List String → List String → Bool → List String
  | [], cleanedBlocks, currentBlock, isInValidSection =>
    flushBlock cleanedBlocks currentBlock isInValidSection
  | [line], cleanedBlocks, currentBlock, isInValidSection =>
    if isAtxHeading (jsTrim line) then
      cleanMarkdownScan [] (flushBlock cleanedBlocks currentBlock isInValidSection)
        [line] true
    else if isInValidSection then
      cleanMarkdownScan [] cleanedBlocks (currentBlock ++ [line]) isInValidSection
    else
      cleanMarkdownScan [] cleanedBlocks currentBlock isInValidSection
  | line :: nextLine :: rest, cleanedBlocks, currentBlock, isInValidSection =>
    let atxMatch := isAtxHeading (jsTrim line)
    let setextMatch := isSetextUnderline nextLine
    if atxMatch || setextMatch then
      let blocks := flushBlock cleanedBlocks currentBlock isInValidSection
      if atxMatch then
        cleanMarkdownScan (nextLine :: rest) blocks [line] true
      else
        cleanMarkdownScan rest blocks [line, nextLine] true
    else if isInValidSection then
      cleanMarkdownScan (nextLine :: rest) cleanedBlocks (currentBlock ++ [line])
        isInValidSection
    else
      cleanMarkdownScan (nextLine :: rest) cleanedBlocks currentBlock
        isInValidSection

/-- `cleanMarkdown` of `markdownCleaner.ts`.  The `typeof` guard is
type-level; the `!rawMarkdown` guard fires exactly on the empty string. -/
def cleanMarkdown (rawMarkdown : String) : String :=
  if rawMarkdown = "" then ""
  else
    let lines := jsSplitLines rawMarkdown
    let cleanedBlocks := cleanMarkdownScan lines [] [] false
    let result := jsTrim (String.intercalate "\n\n" cleanedBlocks)
    if jsLength result = 0 then jsTrim (jsSubstring rawMarkdown 0 2000)
    else result

/-! ## Token-budget truncation (`processingService.ts`, `truncateContentByTokens`) -/

/-- `truncateContentByTokens` of `processingService.ts`.  The float product
`maxChars * 0.9` is modelled exactly over `ℚ`; at the call-site budget
(`maxTokens = 32000`) the integer comparison against it coincides with the
IEEE-double one. -/
def truncateContentByTokens (content : String) (maxTokens : Nat) : String :=
  if content = "" then ""
  else
    let maxChars := maxTokens * 4
    if jsLength content ≤ maxChars then content
    else
      let truncated := content.data.take maxChars
      let lastSpaceIndex := lastIndexOfAux ' ' truncated 0
      let finalContent :=
        if ((maxChars : ℚ) * 9 / 10 : ℚ) < (lastSpaceIndex : ℚ) then
          truncated.take lastSpaceIndex.toNat
        else truncated
      String.mk (finalContent ++ "...".data)

/-! ## Query-list parsing (`processingService.ts`, `parseMarkdownQueryList`) -/

/-- The per-line match of `parseMarkdownQueryList` against `/^-+\s*(.+)/`,
returning the capture group.  Backtracking semantics of the regex: the
longest viable dash run is consumed, then the longest whitespace run that
still leaves at least one character for `(.+)`; a line consisting solely of
two or more dashes matches with capture `"-"`.  (`\s` never meets a newline
inside one split line, so `Char.isWhitespace` is a faithful class.) -/
def matchDashLine (line : String) : Option String :=
  let l := line.data
  let k := countLeading (· = '-') l
  if k = 0 then none
  else
    let rest := l.drop k
    let w := countLeading Char.isWhitespace rest
    let tl := rest.drop w
    if tl ≠ [] then some (String.mk tl)
    else if h : rest ≠ [] then some (String.mk [rest.getLast h])
    else if 2 ≤ k then some "-"
    else none

/-- `parseMarkdownQueryList` of `processingService.ts`: match each line,
trim the capture, deduplicate first-seen. -/
def parseMarkdownQueryList (markdown : String) : List String :=
  let queries := (jsSplitLines markdown).filterMap
    (fun line => (matchDashLine line).map jsTrim)
  dedupFirstSeen queries

/-! ## Graph consolidation (`processingService.ts`, `consolidateKnowledgeGraph`) -/

/-- The canonical key `node.label.toLowerCase() + "_" + node.type` used
throughout `consolidateKnowledgeGraph` and `findNodeKey`. -/
def nodeKey (node : KnowledgeGraphNode) : String :=
  jsToLower node.label ++ "_" ++ node.type

/-- JS object spread `{ ...a, ...b }` on string-keyed records: keys of `a`
in order with `b`'s values winning, then `b`'s new keys in order. -/
def mergeProps (a b : List (String × String)) : List (String × String) :=
  a.map (fun p => (p.1, ((b.lookup p.1).getD p.2))) ++
    b.filter (fun q => (a.lookup q.1).isNone)

/-- One step of the node-consolidation pass: `nodeMap.set(key, {...node,
id: key})` on a fresh key, property merge on an existing one.  The map is
an insertion-ordered association list, the model of a JS `Map`. -/
def consolidateNodesStep (m : List (String × KnowledgeGraphNode))
    (node : KnowledgeGraphNode) : List (String × KnowledgeGraphNode) :=
  let key := nodeKey node
  if (m.lookup key).isSome then
    m.map (fun p =>
      if p.1 = key then
        (p.1, { p.2 with properties := mergeProps p.2.properties node.properties })
      else p)
  else m ++ [(key, { node with id := key })]

/-- The full node pass of `consolidateKnowledgeGraph` (the
`fragment.nodes ?` guard is dead under the typed model). -/
def consolidateNodes (fragments : List KnowledgeGraph) :
    List (String × KnowledgeGraphNode) :=
  fragments.foldl (fun m fragment => fragment.nodes.foldl consolidateNodesStep m) []

/-- `findNodeKey` of `processingService.ts`: scan all fragments for a node
whose `id` equals `nodeId` or whose lowercased label equals the lowercased
`nodeId`, returning its canonical key. -/
def findNodeKey (nodeId : String) (fragments : List KnowledgeGraph) : Option String :=
  fragments.findSome? (fun fragment =>
    (fragment.nodes.find? (fun n =>
      n.id = nodeId || jsToLower n.label = jsToLower nodeId)).map nodeKey)

/-- The JS expression `w || 1` on an optional numeric weight: `undefined`
and `0` are falsy. -/
def jsWeightOrOne (w : Option ℚ) : ℚ :=
  match w with
  | none => 1
  | some x => if x = 0 then 1 else x

/-- One step of the edge-consolidation pass: resolve both endpoints via
`findNodeKey` (dropping the edge if either fails), then insert under
`sourceKey_relationship_targetKey` with weight `edge.weight || 1`, or bump
an existing entry's weight to `min((existing.weight || 1) + 0.1, 1)`. -/
def consolidateEdgesStep (fragments : List KnowledgeGraph)
    (m : List (String × KnowledgeGraphEdge)) (edge : KnowledgeGraphEdge) :
    List (String × KnowledgeGraphEdge) :=
  match findNodeKey edge.source fragments, findNodeKey edge.target fragments with
  | some sourceKey, some targetKey =>
    let edgeKey := sourceKey ++ "_" ++ edge.relationship ++ "_" ++ targetKey
    if (m.lookup edgeKey).isSome then
      m.map (fun p =>
        if p.1 = edgeKey then
          (p.1, { p.2 with weight := some (min (jsWeightOrOne p.2.weight + 1/10) 1) })
        else p)
    else
      m ++ [(edgeKey,
        { source := sourceKey, target := targetKey,
          relationship := edge.relationship,
          weight := some (jsWeightOrOne edge.weight) })]
  | _, _ => m

/-- The full edge pass of `consolidateKnowledgeGraph`. -/
def consolidateEdges (fragments : List KnowledgeGraph) :
    List (String × KnowledgeGraphEdge) :=
  fragments.foldl (fun m fragment =>
    fragment.edges.foldl (consolidateEdgesStep fragments) m) []

/-- `consolidateKnowledgeGraph` of `processingService.ts`: node pass, edge
pass, then `Array.from(map.values())` in insertion order.  (The method's
opening `addLog` call is emitted by the orchestrator model at the call
site.) -/
def consolidateKnowledgeGraph (fragments : List KnowledgeGraph) : KnowledgeGraph :=
  { nodes := (consolidateNodes fragments).map (fun p => p.2)
    edges := (consolidateEdges fragments).map (fun p => p.2) }

/-! ## Pipeline model (`processingService.ts`, orchestration) -/

/-- The `level` field of `LogEntry` (`src/types/index.ts`). -/
inductive LogLevel where
  | INFO
  | SUCCESS
  | ERROR
  | WARNING
deriving DecidableEq, Repr

/-- One `addLog` emission: level and message.  The source's `id` and
`timestamp` fields are wall-clock data outside the model. -/
structure LogEvent where
  level : LogLevel
  message : String
deriving DecidableEq, Repr

/-- `SerpResult` of `src/types/index.ts`, restricted to the fields the
pipeline reads (`link`, `additionalQueries`); `additionalQueries?` is
optional, and JS truthiness makes an absent array behave like an empty
one. -/
structure SerpResult where
  link : String
  additionalQueries : Option (List String)
deriving DecidableEq, Repr

/-- `ProjectConfig` of `src/types/index.ts` (fields read by the pipeline). -/
structure ProjectConfig where
  centralEntity : String
  businessContext : String
  language : String
  location : String
deriving DecidableEq, Repr

/-- `AutoUrlConfig`: the pipeline additionally reads
`autoConfig.serpExplorationDepth`, which the TypeScript interface does not
declare but the code uses; it is included here as the code requires. -/
structure AutoUrlConfig where
  queryExpansionCount : Nat
  urlsPerQuery : Nat
  serpExplorationDepth : Nat
deriving DecidableEq, Repr

/-- `urlSource` discriminator of `AppConfig`. -/
inductive UrlSource where
  | auto
  | manual
deriving DecidableEq, Repr

/-- `ModelConfig` of `src/types/index.ts`. -/
structure ModelConfig where
  extractionModel : String
  synthesisModel : String
deriving DecidableEq, Repr

/-- `AppConfig` of `src/types/index.ts` (fields read by the pipeline). -/
structure AppConfig where
  project : ProjectConfig
  urlSource : UrlSource
  manualUrls : List String
  autoConfig : AutoUrlConfig
  models : ModelConfig
deriving DecidableEq, Repr

/-- The run's external world: the `apiService` boundary, the cancellation
closure (indexed by the number of `isCancelled()` calls made so far) and
the wall-clock seconds shown in the final log line.  Oracles are keyed by
the arguments that vary within one run; an `Except.error e` models a
rejected promise whose `Error` carries message `e`. -/
structure ApiEnv where
  isCancelled : Nat → Bool
  queryExpansion : Except String String
  searchSerp : String → Except String (List SerpResult)
  scoreQueryRelevance : String → Except String ℚ
  scrape : String → Except String String
  extractGraph : String → String → Except String KnowledgeGraph
  synthesize : KnowledgeGraph → Except String String
  execSeconds : Nat

/-- An effectful pipeline step: given the number of cancellation polls
already performed, produce a result (or a thrown `Error` message), the new
poll count and the log events emitted, in order. -/
def Proc (α : Type) : Type :=
  Nat → Except String α × Nat × List LogEvent

/-- The `Error('Process cancelled by user')` message thrown at every
cancellation checkpoint. -/
def cancelMsg : String := "Process cancelled by user"

/-- `Number.prototype.toFixed(2)` on a rational (exact half-up rounding;
only log text, never control flow, depends on it). -/
def qToFixed2 (q : ℚ) : String :=
  let n : Int := round (q * 100)
  let a := n.natAbs
  (if n < 0 then "-" else "") ++ toString (a / 100) ++ "." ++
    (if a % 100 < 10 then "0" else "") ++ toString (a % 100)

/-! ### SERP exploration (`getUrls`) -/

/-- The mutable state of one `getUrls` run: the URL accumulator, the
`queriesToProcess` list being filled for the next round, and the
`processedQueries` set (insertion-ordered; only membership is used). -/
structure SerpState where
  allUrls : List String
  queue : List String
  processed : List String
deriving DecidableEq, Repr

/-- The harvest of `discoveredQueries` from one result set: every
`additionalQueries` entry not already processed and not already collected,
in encounter order. -/
def collectDiscovered (processed : List String) (results : List SerpResult) :
    List String :=
  results.foldl (fun acc r =>
    match r.additionalQueries with
    | none => acc
    | some dqs => dqs.foldl (fun acc2 dq =>
        if !processed.contains dq && !acc2.contains dq then acc2 ++ [dq]
        else acc2) acc) []

/-- The relevance-scoring loop over the discovered candidates: a failed
score is logged at WARNING and skipped (inner `try`/`catch`), a successful
one is collected with its INFO log. -/
def scoreDiscovered (env : ApiEnv) :
    List String → List (String × ℚ) × List LogEvent
  | [] => ([], [])
  | dq :: rest =>
    let (scored, logs) := scoreDiscovered env rest
    match env.scoreQueryRelevance dq with
    | Except.ok score =>
      ((dq, score) :: scored,
       ⟨LogLevel.INFO, "Zapytanie \"" ++ dq ++ "\" otrzymało ocenę trafności: "
          ++ qToFixed2 score⟩ :: logs)
    | Except.error e =>
      (scored,
       ⟨LogLevel.WARNING, "Błąd oceny zapytania \"" ++ dq ++ "\": " ++ e⟩ :: logs)

/-- The JS `reduce` callback chain
`(best, current) => current.score > best.score ? current : best`:
the earliest entry of maximal score wins. -/
def reduceBest : (String × ℚ) → List (String × ℚ) → (String × ℚ)
  | best, [] => best
  | best, current :: rest =>
    reduceBest (if best.2 < current.2 then current else best) rest

/-- `scoredQueries.reduce(...)` guarded by `scoredQueries.length > 0`. -/
def selectBestScored : List (String × ℚ) → Option (String × ℚ)
  | [] => none
  | x :: xs => some (reduceBest x xs)

/-- The body of `getUrls`'s inner `for (const query of queriesForThisRound)`
loop for one query: cancellation checkpoint, processed-set check, search,
URL accumulation, candidate discovery, scoring and the threshold-gated
enqueue of the single best candidate. -/
def processQuery (env : ApiEnv) (cfg : AppConfig) (currentRound : Nat)
    (q : String) (s : SerpState) : Proc SerpState := fun n =>
  if env.isCancelled n then
    (Except.error cancelMsg, n + 1,
     [⟨LogLevel.WARNING, "Proces zatrzymany przez użytkownika"⟩])
  else if s.processed.contains q then
    (Except.ok s, n + 1, [])
  else
    let s1 := { s with processed := s.processed ++ [q] }
    let searchLog : LogEvent :=
      ⟨LogLevel.INFO, "Wyszukiwanie URL-i dla zapytania: \"" ++ q ++ "\""⟩
    match env.searchSerp q with
    | Except.error e =>
      (Except.ok s1, n + 1,
       [searchLog,
        ⟨LogLevel.WARNING, "Błąd wyszukiwania dla \"" ++ q ++ "\": " ++ e⟩])
    | Except.ok results =>
      let urls := results.map (fun r => r.link)
      let s2 := { s1 with allUrls := s1.allUrls ++ urls }
      let foundLog : LogEvent :=
        ⟨LogLevel.INFO, "Znaleziono " ++ toString urls.length
          ++ " URL-i dla \"" ++ q ++ "\""⟩
      let discovered := collectDiscovered s1.processed results
      if discovered ≠ [] ∧ currentRound < cfg.autoConfig.serpExplorationDepth then
        let pickLog : LogEvent :=
          ⟨LogLevel.INFO, "Znaleziono " ++ toString discovered.length
            ++ " potencjalnych zapytań do następnej rundy. Wybieranie najbardziej trafnego..."⟩
        let (scored, scoreLogs) := scoreDiscovered env discovered
        match selectBestScored scored with
        | none =>
          (Except.ok s2, n + 1, [searchLog, foundLog, pickLog] ++ scoreLogs)
        | some best =>
          if (3 : ℚ) / 10 < best.2 then
            (Except.ok { s2 with queue := s2.queue ++ [best.1] }, n + 1,
             [searchLog, foundLog, pickLog] ++ scoreLogs ++
             [⟨LogLevel.SUCCESS, "Wybrano najlepsze zapytanie dla rundy "
                ++ toString (currentRound + 1) ++ ": \"" ++ best.1
                ++ "\" (trafność: " ++ qToFixed2 best.2 ++ ")"⟩])
          else
            (Except.ok s2, n + 1,
             [searchLog, foundLog, pickLog] ++ scoreLogs ++
             [⟨LogLevel.INFO, "Najlepsze zapytanie \"" ++ best.1
                ++ "\" ma zbyt niską trafność (" ++ qToFixed2 best.2
                ++ "). Pomijanie."⟩])
      else
        (Except.ok s2, n + 1, [searchLog, foundLog])

/-- The inner loop of one SERP round over the snapshot
`queriesForThisRound`. -/
def processQueries (env : ApiEnv) (cfg : AppConfig) (currentRound : Nat) :
    List String → SerpState → Proc SerpState
  | [], s => fun n => (Except.ok s, n, [])
  | q :: rest, s => fun n =>
    match processQuery env cfg currentRound q s n with
    | (Except.ok s1, n1, ls1) =>
      match processQueries env cfg currentRound rest s1 n1 with
      | (r, n2, ls2) => (r, n2, ls1 ++ ls2)
    | (Except.error e, n1, ls1) => (Except.error e, n1, ls1)

/-- The outer `for (currentRound = 1; currentRound <= depth; ...)` loop of
`getUrls`: round-start cancellation checkpoint, early exit on an empty
queue, snapshot-and-clear, then the per-query loop.  `remaining` counts
the rounds still permitted (`depth - currentRound + 1`). -/
def serpRounds (env : ApiEnv) (cfg : AppConfig) :
    (remaining currentRound : Nat) → SerpState → Proc SerpState
  | 0, _, s => fun n => (Except.ok s, n, [])
  | remaining + 1, currentRound, s => fun n =>
    if env.isCancelled n then
      (Except.error cancelMsg, n + 1,
       [⟨LogLevel.WARNING,
         "Proces zatrzymany przez użytkownika podczas eksploracji SERP"⟩])
    else if s.queue = [] then
      (Except.ok s, n + 1,
       [⟨LogLevel.INFO, "Brak nowych zapytań do przetworzenia w rundzie "
          ++ toString currentRound ++ ". Zakończenie eksploracji."⟩])
    else
      let roundLog : LogEvent :=
        ⟨LogLevel.INFO, "Rozpoczynanie rundy eksploracji SERP (głębokość "
          ++ toString currentRound ++ "/"
          ++ toString cfg.autoConfig.serpExplorationDepth ++ ")..."⟩
      let snapshot := s.queue
      match processQueries env cfg currentRound snapshot { s with queue := [] } (n + 1) with
      | (Except.ok s1, n1, ls1) =>
        match serpRounds env cfg remaining (currentRound + 1) s1 n1 with
        | (r, n2, ls2) => (r, n2, roundLog :: ls1 ++ ls2)
      | (Except.error e, n1, ls1) => (Except.error e, n1, roundLog :: ls1)

/-- `getUrls` of `processingService.ts`. -/
def getUrls (env : ApiEnv) (cfg : AppConfig) : Proc (List String) := fun n =>
  match cfg.urlSource with
  | UrlSource.manual =>
    (Except.ok cfg.manualUrls, n,
     [⟨LogLevel.INFO, "Używanie ręcznie wprowadzonych URL-i"⟩])
  | UrlSource.auto =>
    let openLogs : List LogEvent :=
      [⟨LogLevel.INFO, "Rozpoczynanie automatycznego pozyskiwania URL-i..."⟩,
       ⟨LogLevel.INFO, "Generowanie " ++ toString cfg.autoConfig.queryExpansionCount
          ++ " zapytań na podstawie \"" ++ cfg.project.centralEntity ++ "\""⟩]
    match env.queryExpansion with
    | Except.error e => (Except.error e, n, openLogs)
    | Except.ok rawQueriesMarkdown =>
      let initialQueries := parseMarkdownQueryList rawQueriesMarkdown
      let openLogs2 := openLogs ++
        [⟨LogLevel.SUCCESS, "Wygenerowano " ++ toString initialQueries.length
           ++ " początkowych zapytań."⟩]
      match serpRounds env cfg cfg.autoConfig.serpExplorationDepth 1
          { allUrls := [], queue := initialQueries, processed := [] } n with
      | (Except.ok s, n1, ls1) =>
        (Except.ok (dedupFirstSeen s.allUrls), n1, openLogs2 ++ ls1)
      | (Except.error e, n1, ls1) => (Except.error e, n1, openLogs2 ++ ls1)

/-! ### Content fetching (`scrapeContent`) -/

/-- One URL of a fetch batch (the `batch.map(async (url, index) => ...)`
callback): INFO attempt log, then either a retained `{url, content}` (with
SUCCESS log, content strictly longer than 100), a too-short WARNING, or a
failure WARNING.  Within a batch the source pushes results in promise
completion order; the claims do not concern intra-batch order and the model
uses list order. -/
def scrapeOne (env : ApiEnv) (total : Nat) (pos : Nat) (url : String) :
    Option (String × String) × List LogEvent :=
  let tryLog : LogEvent :=
    ⟨LogLevel.INFO, "Pobieram treść z " ++ url ++ " (" ++ toString pos ++ "/"
      ++ toString total ++ ")"⟩
  match env.scrape url with
  | Except.ok content =>
    if 100 < jsLength content then
      (some (url, content),
       [tryLog, ⟨LogLevel.SUCCESS, "Pobrano treść z " ++ url ++ " ("
          ++ toString (jsLength content) ++ " znaków)"⟩])
    else
      (none, [tryLog, ⟨LogLevel.WARNING, "Zbyt mało treści z " ++ url⟩])
  | Except.error e =>
    (none, [tryLog, ⟨LogLevel.WARNING, "Błąd pobierania z " ++ url ++ ": " ++ e⟩])

/-- One batch of at most 3 URLs; `pos` is the 1-based display index of the
batch's first URL. -/
def scrapeBatch (env : ApiEnv) (total : Nat) :
    List String → Nat → List (String × String) × List LogEvent
  | [], _ => ([], [])
  | url :: rest, pos =>
    let (r, ls) := scrapeOne env total pos url
    let (rs, ls2) := scrapeBatch env total rest (pos + 1)
    (r.toList ++ rs, ls ++ ls2)

/-- The `for (let i = 0; i < urls.length; i += batchSize)` loop: one
cancellation checkpoint per batch, then the batch itself. -/
def scrapeLoop (env : ApiEnv) (total : Nat) :
    (remaining : List String) → (i : Nat) → Proc (List (String × String))
  | [], _ => fun n => (Except.ok [], n, [])
  | url :: rest, i => fun n =>
    if env.isCancelled n then
      (Except.error cancelMsg, n + 1,
       [⟨LogLevel.WARNING,
         "Proces zatrzymany przez użytkownika podczas pobierania treści"⟩])
    else
      let batch := (url :: rest).take 3
      let (collected, ls) := scrapeBatch env total batch (i + 1)
      match scrapeLoop env total ((url :: rest).drop 3) (i + 3) (n + 1) with
      | (Except.ok more, n1, ls1) => (Except.ok (collected ++ more), n1, ls ++ ls1)
      | (Except.error e, n1, ls1) => (Except.error e, n1, ls ++ ls1)
termination_by remaining _ => remaining.length
decreasing_by
  simp only [List.length_drop, List.length_cons]
  omega

/-- `scrapeContent` of `processingService.ts`. -/
def scrapeContent (env : ApiEnv) (urls : List String) :
    Proc (List (String × String)) := fun n =>
  let openLog : LogEvent :=
    ⟨LogLevel.INFO, "Rozpoczynanie pobierania treści z " ++ toString urls.length
      ++ " stron..."⟩
  match scrapeLoop env urls.length urls 0 n with
  | (r, n1, ls1) => (r, n1, openLog :: ls1)

/-! ### Knowledge-graph extraction (`extractKnowledgeGraphs`) -/

/-- The universal token budget `UNIVERSAL_MAX_TOKENS`. -/
def UNIVERSAL_MAX_TOKENS : Nat := 32000

/-- The per-document loop of `extractKnowledgeGraphs`: cancellation
checkpoint, markdown cleaning, token-budget truncation, extraction call,
noise filtering, and retention of fragments that keep at least one node.
`i` is the 0-based index of the current document. -/
def extractLoop (env : ApiEnv) (total : Nat) :
    List (String × String) → Nat → Proc (List KnowledgeGraph)
  | [], _ => fun n => (Except.ok [], n, [])
  | (url, content) :: rest, i => fun n =>
    if env.isCancelled n then
      (Except.error cancelMsg, n + 1,
       [⟨LogLevel.WARNING,
         "Proces zatrzymany przez użytkownika podczas ekstrakcji grafów"⟩])
    else
      let genLog : LogEvent :=
        ⟨LogLevel.INFO, "Generuję graf wiedzy dla " ++ url ++ " ("
          ++ toString (i + 1) ++ "/" ++ toString total ++ ")"⟩
      let cleanedContent := cleanMarkdown content
      let cleanLog : LogEvent :=
        ⟨LogLevel.INFO, "Oczyszczono treść dla " ++ url ++ ": "
          ++ toString (jsLength content) ++ " → "
          ++ toString (jsLength cleanedContent) ++ " znaków"⟩
      let processedContent := truncateContentByTokens cleanedContent UNIVERSAL_MAX_TOKENS
      let truncLogs : List LogEvent :=
        if processedContent ≠ cleanedContent then
          [⟨LogLevel.INFO, "Obcięto treść dla " ++ url ++ " do "
             ++ toString UNIVERSAL_MAX_TOKENS ++ " tokenów (~"
             ++ toString (jsLength processedContent) ++ " znaków)"⟩]
        else []
      let (kept, itemLogs) :=
        match env.extractGraph processedContent url with
        | Except.error e =>
          (([] : List KnowledgeGraph),
           [⟨LogLevel.WARNING, "Błąd generowania grafu dla " ++ url ++ ": " ++ e⟩])
        | Except.ok rawGraph =>
          if rawGraph.nodes ≠ [] then
            let cleanedGraph := cleanKnowledgeGraph rawGraph
            let stats := getCleaningStats rawGraph cleanedGraph
            let statsLog : LogEvent :=
              ⟨LogLevel.INFO, "Czyszczenie grafu dla " ++ url ++ ": "
                ++ toString stats.nodesRemoved ++ " węzłów usuniętych ("
                ++ toString stats.nodesFilteredPercent ++ "%), "
                ++ toString stats.edgesRemoved ++ " krawędzi usuniętych ("
                ++ toString stats.edgesFilteredPercent ++ "%)"⟩
            if cleanedGraph.nodes ≠ [] then
              ([cleanedGraph],
               [statsLog, ⟨LogLevel.SUCCESS, "Wygenerowano oczyszczony graf z "
                  ++ toString cleanedGraph.nodes.length ++ " węzłami dla " ++ url⟩])
            else
              ([], [statsLog, ⟨LogLevel.WARNING, "Graf dla " ++ url
                 ++ " jest pusty po oczyszczeniu - zbyt dużo szumu"⟩])
          else
            ([], [⟨LogLevel.WARNING, "Pusty graf dla " ++ url⟩])
      match extractLoop env total rest (i + 1) (n + 1) with
      | (Except.ok more, n1, ls1) =>
        (Except.ok (kept ++ more), n1, genLog :: cleanLog :: truncLogs ++ itemLogs ++ ls1)
      | (Except.error e, n1, ls1) =>
        (Except.error e, n1, genLog :: cleanLog :: truncLogs ++ itemLogs ++ ls1)

/-- `extractKnowledgeGraphs` of `processingService.ts` (central entity,
business context, model and language only parameterize the extraction
prompt, i.e. the oracle). -/
def extractKnowledgeGraphs (env : ApiEnv)
    (scraped : List (String × String)) : Proc (List KnowledgeGraph) := fun n =>
  let openLog : LogEvent :=
    ⟨LogLevel.INFO, "Rozpoczynanie ekstrakcji grafów wiedzy z "
      ++ toString scraped.length ++ " stron..."⟩
  match extractLoop env scraped.length scraped 0 n with
  | (r, n1, ls1) => (r, n1, openLog :: ls1)

/-! ### Synthesis and the orchestrator (`generateTopicalMap`, `processTopicalMap`) -/

/-- The placeholder report produced when the consolidated graph is empty. -/
def emptyGraphReport (cfg : AppConfig) : String :=
  "# Mapa Tematyczna: " ++ cfg.project.centralEntity ++
  "\n\n## Podsumowanie\nNie udało się zebrać wystarczających danych z internetu aby wygenerować szczegółową mapę tematyczną.\n\n## Konfiguracja Projektu\n- **Centralna Encja**: "
  ++ cfg.project.centralEntity ++
  "\n- **Kontekst Biznesowy**: " ++ cfg.project.businessContext ++
  "\n- **Język**: " ++ cfg.project.language ++
  "\n- **Lokalizacja**: " ++ cfg.project.location ++
  "\n\n## Zalecenia\n1. Sprawdź poprawność kluczy API\n2. Upewnij się, że centralna encja jest popularna w internecie\n3. Rozważ użycie trybu ręcznego z konkretnymi URL-ami\n4. Sprawdź czy wybrane zapytania zwracają wyniki w wyszukiwarce Google\n\n*Mapa wygenerowana automatycznie z powodu braku danych źródłowych.*"

/-- `generateTopicalMap` of `processingService.ts`: empty-graph placeholder
or the synthesis boundary call. -/
def generateTopicalMap (env : ApiEnv) (graph : KnowledgeGraph)
    (cfg : AppConfig) : Proc String := fun n =>
  let openLog : LogEvent :=
    ⟨LogLevel.INFO, "Generowanie finalnej mapy tematycznej..."⟩
  if graph.nodes = [] then
    (Except.ok (emptyGraphReport cfg), n,
     [openLog, ⟨LogLevel.WARNING,
       "Graf wiedzy jest pusty - generowanie podstawowej mapy na podstawie konfiguracji"⟩])
  else
    match env.synthesize graph with
    | Except.ok report => (Except.ok report, n, [openLog])
    | Except.error e => (Except.error e, n, [openLog])

/-- The `metadata` record of `ProcessResults` (`executionTime` is
wall-clock data outside the model). -/
structure RunMetadata where
  totalUrls : Nat
  processedUrls : Nat
  config : AppConfig
deriving DecidableEq, Repr

/-- `ProcessResults` of `src/types/index.ts` (modelled fields). -/
structure ProcessResults where
  topicalMap : String
  knowledgeGraph : KnowledgeGraph
  scrapedContent : List (String × String)
  metadata : RunMetadata
deriving DecidableEq, Repr

/-- The `try` block of `processTopicalMap`: the five pipeline stages with
their SUCCESS transition logs. -/
def processBody (env : ApiEnv) (cfg : AppConfig) : Proc ProcessResults := fun n =>
  match getUrls env cfg n with
  | (Except.error e, n1, ls1) => (Except.error e, n1, ls1)
  | (Except.ok urls, n1, ls1) =>
    let ls1' := ls1 ++ [⟨LogLevel.SUCCESS, "Pozyskano " ++ toString urls.length
      ++ " unikalnych URL-i do analizy"⟩]
    match scrapeContent env urls n1 with
    | (Except.error e, n2, ls2) => (Except.error e, n2, ls1' ++ ls2)
    | (Except.ok scraped, n2, ls2) =>
      let ls2' := ls1' ++ ls2 ++ [⟨LogLevel.SUCCESS, "Pobrano treść z "
        ++ toString scraped.length ++ "/" ++ toString urls.length ++ " stron"⟩]
      match extractKnowledgeGraphs env scraped n2 with
      | (Except.error e, n3, ls3) => (Except.error e, n3, ls2' ++ ls3)
      | (Except.ok fragments, n3, ls3) =>
        let ls3' := ls2' ++ ls3 ++ [⟨LogLevel.SUCCESS, "Wygenerowano "
          ++ toString fragments.length ++ " fragmentów grafu wiedzy"⟩]
        let consolidateLog : LogEvent :=
          ⟨LogLevel.INFO, "Konsolidacja " ++ toString fragments.length
            ++ " fragmentów grafu wiedzy..."⟩
        let consolidatedGraph := consolidateKnowledgeGraph fragments
        let ls4 := ls3' ++ [consolidateLog,
          ⟨LogLevel.SUCCESS, "Skonsolidowano graf: "
            ++ toString consolidatedGraph.nodes.length ++ " węzłów, "
            ++ toString consolidatedGraph.edges.length ++ " relacji"⟩]
        match generateTopicalMap env consolidatedGraph cfg n3 with
        | (Except.error e, n4, ls5) => (Except.error e, n4, ls4 ++ ls5)
        | (Except.ok topicalMap, n4, ls5) =>
          (Except.ok
            { topicalMap := topicalMap
              knowledgeGraph := consolidatedGraph
              scrapedContent := scraped
              metadata :=
                { totalUrls := urls.length
                  processedUrls := scraped.length
                  config := cfg } }, n4,
           ls4 ++ ls5 ++
           [⟨LogLevel.SUCCESS, "Wygenerowano finalną mapę tematyczną"⟩,
            ⟨LogLevel.SUCCESS, "Proces zakończony pomyślnie w czasie "
              ++ toString env.execSeconds ++ "s"⟩])

/-- `processTopicalMap` of `processingService.ts`: the opening INFO log,
the `try` body, and the `catch` handler, which logs every caught error at
ERROR and then either swallows a user cancellation (with an INFO notice,
resolving with no results) or rethrows. -/
def processTopicalMap (env : ApiEnv) (cfg : AppConfig) :
    Proc (Option ProcessResults) := fun n =>
  let openLog : LogEvent :=
    ⟨LogLevel.INFO, "Rozpoczynanie procesu generowania mapy tematycznej..."⟩
  match processBody env cfg n with
  | (Except.ok results, n1, ls1) =>
    (Except.ok (some results), n1, openLog :: ls1)
  | (Except.error e, n1, ls1) =>
    let errorLog : LogEvent :=
      ⟨LogLevel.ERROR, "Błąd podczas przetwarzania: " ++ e⟩
    if e = cancelMsg then
      (Except.ok none, n1, openLog :: ls1 ++
        [errorLog,
         ⟨LogLevel.INFO, "Proces został anulowany przez użytkownika."⟩])
    else
      (Except.error e, n1, openLog :: ls1 ++ [errorLog])

/-! ## General lemmas about the embedding -/

/-- Membership characterization of association-list lookup. -/
theorem lookup_isSome_iff {α : Type} (m : List (String × α)) (k : String) :
    (m.lookup k).isSome ↔ ∃ p ∈ m, p.1 = k := by
  induction m with
  | nil => simp [List.lookup]
  | cons hd tl ih =>
    cases hd with
    | mk a b =>
      by_cases hak : a = k
      · subst hak
        simp [List.lookup]
      · rw [List.lookup]
        have : (k == a) = false := by
          simp [BEq.beq]
          exact fun h => hak h.symm
        simp only [this]
        simp only [ih]
        constructor
        · rintro ⟨p, hp, hk⟩
          exact ⟨p, List.mem_cons_of_mem _ hp, hk⟩
        · rintro ⟨p, hp, hk⟩
          rcases List.mem_cons.mp hp with h | h
          · subst h
            exact absurd hk hak
          · exact ⟨p, h, hk⟩

/-! ## C6 — idempotence of the graph noise filter -/

/-- C6: `cleanKnowledgeGraph` is idempotent: filtering an already-filtered
fragment yields an identical fragment (the filter is a projection). -/
theorem claim_C6_cleanKnowledgeGraph_idempotent (g : KnowledgeGraph) :
    cleanKnowledgeGraph (cleanKnowledgeGraph g) = cleanKnowledgeGraph g := by
  simp only [cleanKnowledgeGraph]
  have hn : (g.nodes.filter nodeAllowed).filter nodeAllowed
      = g.nodes.filter nodeAllowed := by
    rw [List.filter_filter]
    simp
  congr 1
  rw [hn, List.filter_filter]
  simp

/-! ## C4 — referential integrity -/

/-- Every entry of the consolidated node map carries the map key as its
node `id` (insertion overwrites the extractor id, merges keep it). -/
theorem consolidateNodesStep_id (m : List (String × KnowledgeGraphNode))
    (node : KnowledgeGraphNode) (h : ∀ p ∈ m, p.2.id = p.1) :
    ∀ p ∈ consolidateNodesStep m node, p.2.id = p.1 := by
  intro p hp
  unfold consolidateNodesStep at hp
  by_cases hs : (m.lookup (nodeKey node)).isSome
  · rw [if_pos hs] at hp
    rcases List.mem_map.mp hp with ⟨q, hq, hfq⟩
    by_cases hqk : q.1 = nodeKey node
    · rw [if_pos hqk] at hfq
      subst hfq
      exact h q hq
    · rw [if_neg hqk] at hfq
      subst hfq
      exact h q hq
  · rw [if_neg hs] at hp
    rcases List.mem_append.mp hp with hq | hq
    · exact h p hq
    · rcases List.mem_singleton.mp hq with rfl
      rfl

/-- The node map's `id = key` invariant for the whole node pass. -/
theorem consolidateNodes_id (fragments : List KnowledgeGraph) :
    ∀ p ∈ consolidateNodes fragments, p.2.id = p.1 := by
  unfold consolidateNodes
  refine List.foldlRecOn
    (motive := fun (m : List (String × KnowledgeGraphNode)) => ∀ p ∈ m, p.2.id = p.1)
    fragments _ [] ?_ ?_
  · intro p hp
    exact absurd hp (List.not_mem_nil _)
  · intro m hm frag _
    refine List.foldlRecOn
      (motive := fun (m2 : List (String × KnowledgeGraphNode)) => ∀ p ∈ m2, p.2.id = p.1)
      frag.nodes _ m hm ?_
    intro m2 hm2 node _
    exact consolidateNodesStep_id m2 node hm2

/-- A step of the node pass preserves presence of any key. -/
theorem consolidateNodesStep_key_pres (m : List (String × KnowledgeGraphNode))
    (node : KnowledgeGraphNode) (k : String) (h : ∃ p ∈ m, p.1 = k) :
    ∃ p ∈ consolidateNodesStep m node, p.1 = k := by
  rcases h with ⟨p, hp, hk⟩
  unfold consolidateNodesStep
  by_cases hs : (m.lookup (nodeKey node)).isSome
  · simp only [hs, if_true]
    refine ⟨(if p.1 = nodeKey node then
      (p.1, { p.2 with properties := mergeProps p.2.properties node.properties })
      else p), List.mem_map_of_mem _ hp, ?_⟩
    by_cases hpk : p.1 = nodeKey node
    · rw [if_pos hpk]
      exact hk
    · rw [if_neg hpk]
      exact hk
  · simp only [hs, if_false]
    exact ⟨p, List.mem_append_left _ hp, hk⟩

/-- A step of the node pass makes its own node's key present. -/
theorem consolidateNodesStep_key_self (m : List (String × KnowledgeGraphNode))
    (node : KnowledgeGraphNode) :
    ∃ p ∈ consolidateNodesStep m node, p.1 = nodeKey node := by
  unfold consolidateNodesStep
  by_cases hs : (m.lookup (nodeKey node)).isSome
  · simp only [hs, if_true]
    rcases (lookup_isSome_iff m (nodeKey node)).mp hs with ⟨p, hp, hk⟩
    refine ⟨(if p.1 = nodeKey node then
      (p.1, { p.2 with properties := mergeProps p.2.properties node.properties })
      else p), List.mem_map_of_mem _ hp, ?_⟩
    rw [if_pos hk]
    exact hk
  · simp only [hs, if_false]
    exact ⟨(nodeKey node, { node with id := nodeKey node }),
      List.mem_append_right _ (List.mem_singleton_self _), rfl⟩

/-- Folding the node pass over a node list preserves key presence. -/
theorem foldl_nodes_key_pres (l : List KnowledgeGraphNode)
    (m : List (String × KnowledgeGraphNode)) (k : String)
    (h : ∃ p ∈ m, p.1 = k) :
    ∃ p ∈ l.foldl consolidateNodesStep m, p.1 = k := by
  refine List.foldlRecOn
    (motive := fun (m2 : List (String × KnowledgeGraphNode)) => ∃ p ∈ m2, p.1 = k)
    l _ m h ?_
  intro m2 hm2 node _
  exact consolidateNodesStep_key_pres m2 node k hm2

/-- Folding the node pass over a node list adds each member's key. -/
theorem foldl_nodes_key_mem (node : KnowledgeGraphNode) :
    ∀ (l : List KnowledgeGraphNode) (m : List (String × KnowledgeGraphNode)),
    node ∈ l → ∃ p ∈ l.foldl consolidateNodesStep m, p.1 = nodeKey node := by
  intro l
  induction l with
  | nil => intro m h; exact absurd h (List.not_mem_nil _)
  | cons x xs ih =>
    intro m hmem
    rcases List.mem_cons.mp hmem with rfl | hx
    · exact foldl_nodes_key_pres xs _ _ (consolidateNodesStep_key_self m node)
    · exact ih _ hx

/-- Every node of every input fragment has its canonical key present in the
consolidated node map. -/
theorem consolidateNodes_key_mem (fragments : List KnowledgeGraph)
    (frag : KnowledgeGraph) (node : KnowledgeGraphNode)
    (hf : frag ∈ fragments) (hn : node ∈ frag.nodes) :
    ∃ p ∈ consolidateNodes fragments, p.1 = nodeKey node := by
  unfold consolidateNodes
  suffices h : ∀ (fs : List KnowledgeGraph) (m : List (String × KnowledgeGraphNode)),
      frag ∈ fs → ∃ p ∈ fs.foldl (fun m fragment =>
        fragment.nodes.foldl consolidateNodesStep m) m, p.1 = nodeKey node by
    exact h fragments [] hf
  intro fs
  induction fs with
  | nil => intro m h; exact absurd h (List.not_mem_nil _)
  | cons g gs ih =>
    intro m hmem
    rcases List.mem_cons.mp hmem with rfl | hg
    · simp only [List.foldl_cons]
      refine List.foldlRecOn
        (motive := fun (m2 : List (String × KnowledgeGraphNode)) =>
          ∃ p ∈ m2, p.1 = nodeKey node) gs _ _
        (foldl_nodes_key_mem node frag.nodes m hn) ?_
      intro m2 hm2 frag2 _
      exact foldl_nodes_key_pres frag2.nodes m2 _ hm2
    · exact ih _ hg

/-- A successful `findNodeKey` resolution names the canonical key of some
node of some fragment. -/
theorem findNodeKey_some (nodeId : String) (fragments : List KnowledgeGraph)
    (k : String) (h : findNodeKey nodeId fragments = some k) :
    ∃ frag ∈ fragments, ∃ node ∈ frag.nodes, nodeKey node = k := by
  unfold findNodeKey at h
  rcases List.exists_of_findSome?_eq_some h with ⟨frag, hf, hinner⟩
  rcases Option.map_eq_some'.mp hinner with ⟨node, hfind, hk⟩
  exact ⟨frag, hf, node, List.mem_of_find?_eq_some hfind, hk⟩

/-- A successfully resolved key denotes a node present in the consolidated
node map. -/
theorem findNodeKey_resolved (nodeId : String) (fragments : List KnowledgeGraph)
    (k : String) (h : findNodeKey nodeId fragments = some k) :
    ∃ p ∈ consolidateNodes fragments, p.1 = k := by
  rcases findNodeKey_some nodeId fragments k h with ⟨frag, hf, node, hn, hk⟩
  rcases consolidateNodes_key_mem fragments frag node hf hn with ⟨p, hp, hpk⟩
  exact ⟨p, hp, hpk.trans hk⟩

/-- The endpoint invariant of the edge pass: every edge of the edge map has
both endpoints equal to keys present in the consolidated node map. -/
theorem consolidateEdges_endpoints (fragments : List KnowledgeGraph) :
    ∀ q ∈ consolidateEdges fragments,
      (∃ p ∈ consolidateNodes fragments, p.1 = q.2.source) ∧
      (∃ p ∈ consolidateNodes fragments, p.1 = q.2.target) := by
  unfold consolidateEdges
  refine List.foldlRecOn
    (motive := fun (m : List (String × KnowledgeGraphEdge)) => ∀ q ∈ m,
      (∃ p ∈ consolidateNodes fragments, p.1 = q.2.source) ∧
      (∃ p ∈ consolidateNodes fragments, p.1 = q.2.target))
    fragments _ [] ?_ ?_
  · intro q hq
    exact absurd hq (List.not_mem_nil _)
  · intro m hm frag _
    refine List.foldlRecOn
      (motive := fun (m2 : List (String × KnowledgeGraphEdge)) => ∀ q ∈ m2,
        (∃ p ∈ consolidateNodes fragments, p.1 = q.2.source) ∧
        (∃ p ∈ consolidateNodes fragments, p.1 = q.2.target))
      frag.edges _ m hm ?_
    intro m2 hm2 edge _
    intro q hq
    unfold consolidateEdgesStep at hq
    cases hsk : findNodeKey edge.source fragments with
    | none => simp only [hsk] at hq; exact hm2 q hq
    | some sourceKey =>
      cases htk : findNodeKey edge.target fragments with
      | none => simp only [hsk, htk] at hq; exact hm2 q hq
      | some targetKey =>
        simp only [hsk, htk] at hq
        by_cases hmem : (m2.lookup (sourceKey ++ "_" ++ edge.relationship ++ "_" ++ targetKey)).isSome
        · rw [if_pos hmem] at hq
          rcases List.mem_map.mp hq with ⟨q0, hq0, hfq⟩
          by_cases hqk : q0.1 = sourceKey ++ "_" ++ edge.relationship ++ "_" ++ targetKey
          · rw [if_pos hqk] at hfq
            subst hfq
            exact hm2 q0 hq0
          · rw [if_neg hqk] at hfq
            subst hfq
            exact hm2 q0 hq0
        · rw [if_neg hmem] at hq
          rcases List.mem_append.mp hq with hq0 | hq0
          · exact hm2 q hq0
          · rcases List.mem_singleton.mp hq0 with rfl
            exact ⟨findNodeKey_resolved edge.source fragments sourceKey hsk,
              findNodeKey_resolved edge.target fragments targetKey htk⟩

/-- C4: referential integrity.  (a) Every edge surviving
`cleanKnowledgeGraph` has both endpoint ids among the filtered fragment's
node ids; (b) every edge of the consolidated graph has source and target
equal to the id (= canonical key) of a node present in the consolidated
node list. -/
theorem claim_C4_referential_integrity :
    (∀ (g : KnowledgeGraph), ∀ e ∈ (cleanKnowledgeGraph g).edges,
      (∃ node ∈ (cleanKnowledgeGraph g).nodes, node.id = e.source) ∧
      (∃ node ∈ (cleanKnowledgeGraph g).nodes, node.id = e.target)) ∧
    (∀ (fragments : List KnowledgeGraph),
      ∀ e ∈ (consolidateKnowledgeGraph fragments).edges,
      (∃ node ∈ (consolidateKnowledgeGraph fragments).nodes, node.id = e.source) ∧
      (∃ node ∈ (consolidateKnowledgeGraph fragments).nodes, node.id = e.target)) := by
  constructor
  · intro g e he
    simp only [cleanKnowledgeGraph] at he ⊢
    rcases List.mem_filter.mp he with ⟨hmem, hpred⟩
    rcases Bool.and_eq_true_iff.mp hpred with ⟨hsrc, htgt⟩
    constructor
    · rcases List.mem_map.mp (List.elem_iff.mp hsrc) with ⟨node, hn, hid⟩
      exact ⟨node, hn, hid⟩
    · rcases List.mem_map.mp (List.elem_iff.mp htgt) with ⟨node, hn, hid⟩
      exact ⟨node, hn, hid⟩
  · intro fragments e he
    simp only [consolidateKnowledgeGraph] at he ⊢
    rcases List.mem_map.mp he with ⟨q, hq, hqe⟩
    rcases consolidateEdges_endpoints fragments q hq with ⟨⟨p1, hp1, hk1⟩, ⟨p2, hp2, hk2⟩⟩
    subst hqe
    constructor
    · exact ⟨p1.2, List.mem_map_of_mem _ hp1,
        (consolidateNodes_id fragments p1 hp1).trans hk1⟩
    · exact ⟨p2.2, List.mem_map_of_mem _ hp2,
        (consolidateNodes_id fragments p2 hp2).trans hk2⟩

/-! ## C5 — node identity collapse -/

/-- A node-pass step never duplicates a map key: the key list stays
`Nodup`. -/
theorem consolidateNodesStep_keys_nodup (m : List (String × KnowledgeGraphNode))
    (node : KnowledgeGraphNode) (h : (m.map (fun p => p.1)).Nodup) :
    ((consolidateNodesStep m node).map (fun p => p.1)).Nodup := by
  unfold consolidateNodesStep
  by_cases hs : (m.lookup (nodeKey node)).isSome
  · rw [if_pos hs]
    have hkeys : (m.map (fun p =>
        (if p.1 = nodeKey node then
          (p.1, { p.2 with properties := mergeProps p.2.properties node.properties })
        else p))).map (fun p => p.1) = m.map (fun p => p.1) := by
      rw [List.map_map]
      refine List.map_congr_left ?_
      intro p _
      by_cases hpk : p.1 = nodeKey node
      · simp [hpk]
      · simp [hpk]
    rw [hkeys]
    exact h
  · rw [if_neg hs]
    have hk : nodeKey node ∉ m.map (fun p => p.1) := by
      intro hmem
      rcases List.mem_map.mp hmem with ⟨p, hp, hpk⟩
      exact hs ((lookup_isSome_iff m (nodeKey node)).mpr ⟨p, hp, hpk⟩)
    rw [List.map_append]
    simp only [List.map_cons, List.map_nil]
    simp [List.nodup_append, h, hk]

/-- The consolidated node map has pairwise-distinct keys. -/
theorem consolidateNodes_keys_nodup (fragments : List KnowledgeGraph) :
    ((consolidateNodes fragments).map (fun p => p.1)).Nodup := by
  unfold consolidateNodes
  refine List.foldlRecOn
    (motive := fun (m : List (String × KnowledgeGraphNode)) =>
      (m.map (fun p => p.1)).Nodup)
    fragments _ [] (by simp) ?_
  intro m hm frag _
  refine List.foldlRecOn
    (motive := fun (m2 : List (String × KnowledgeGraphNode)) =>
      (m2.map (fun p => p.1)).Nodup)
    frag.nodes _ m hm ?_
  intro m2 hm2 node _
  exact consolidateNodesStep_keys_nodup m2 node hm2

/-- C5: node identity collapse.  Two input nodes (possibly from different
fragments) whose lowercased labels and types agree produce exactly one
consolidated node, whose id is `lowercase(label) + "_" + type`. -/
theorem claim_C5_node_identity_collapse (fragments : List KnowledgeGraph)
    (frag1 frag2 : KnowledgeGraph) (n1 n2 : KnowledgeGraphNode)
    (h1 : frag1 ∈ fragments) (h2 : frag2 ∈ fragments)
    (hn1 : n1 ∈ frag1.nodes) (hn2 : n2 ∈ frag2.nodes)
    (hl : jsToLower n1.label = jsToLower n2.label) (ht : n1.type = n2.type) :
    ((consolidateKnowledgeGraph fragments).nodes.filter
       (fun node => node.id = jsToLower n1.label ++ "_" ++ n1.type)).length = 1 ∧
    nodeKey n2 = jsToLower n1.label ++ "_" ++ n1.type := by
  have hkey2 : nodeKey n2 = jsToLower n1.label ++ "_" ++ n1.type := by
    unfold nodeKey
    rw [← hl, ← ht]
  refine ⟨?_, hkey2⟩
  have hkey1 : nodeKey n1 = jsToLower n1.label ++ "_" ++ n1.type := rfl
  set k := jsToLower n1.label ++ "_" ++ n1.type with hk
  have hmem : k ∈ (consolidateNodes fragments).map (fun p => p.1) := by
    rcases consolidateNodes_key_mem fragments frag1 n1 h1 hn1 with ⟨p, hp, hpk⟩
    exact List.mem_map.mpr ⟨p, hp, hpk.trans hkey1⟩
  have hid := consolidateNodes_id fragments
  simp only [consolidateKnowledgeGraph]
  have step1 : ((consolidateNodes fragments).map (fun p => p.2)).filter
      (fun node => node.id = k)
      = ((consolidateNodes fragments).filter (fun p => p.2.id = k)).map
        (fun p => p.2) := by
    rw [List.filter_map]
    rfl
  rw [step1, List.length_map]
  have step2 : (consolidateNodes fragments).filter (fun p => p.2.id = k)
      = (consolidateNodes fragments).filter (fun p => p.1 == k) := by
    refine List.filter_congr ?_
    intro p hp
    rw [hid p hp]
    by_cases hpk : p.1 = k
    · simp [hpk]
    · simp [hpk]
  rw [step2]
  have step3 : ((consolidateNodes fragments).filter (fun p => p.1 == k)).length
      = (((consolidateNodes fragments).map (fun p => p.1)).filter
          (fun x => x == k)).length := by
    rw [List.filter_map]
    rw [List.length_map]
    rfl
  rw [step3]
  have step4 : (((consolidateNodes fragments).map (fun p => p.1)).filter
      (fun x => x == k)).length
      = List.count k ((consolidateNodes fragments).map (fun p => p.1)) := by
    rw [List.count, List.countP_eq_length_filter]
  rw [step4]
  exact List.count_eq_one_of_mem (consolidateNodes_keys_nodup fragments) hmem

/-! ## C2 / C10 — edge weights under consolidation -/

/-- Concrete fragments used by the weight claims. -/
def kgNodeA : KnowledgeGraphNode := ⟨"n1", "A", "T", []⟩

def kgNodeB : KnowledgeGraphNode := ⟨"n2", "B", "T", []⟩

/-- One fragment with a single weight-2 edge (the extractor is free to emit
any number, the interface type being `number`). -/
def fragWeightTwo : KnowledgeGraph :=
  ⟨[kgNodeA, kgNodeB], [⟨"n1", "n2", "likes", some 2⟩]⟩

/-- One fragment with the same weight-2 edge observed twice. -/
def fragWeightTwoTwice : KnowledgeGraph :=
  ⟨[kgNodeA, kgNodeB],
   [⟨"n1", "n2", "likes", some 2⟩, ⟨"n1", "n2", "likes", some 2⟩]⟩

/-- An input-side weight bound yields `jsWeightOrOne ≤ 1`. -/
theorem jsWeightOrOne_le_one (w : Option ℚ)
    (h : ∀ x : ℚ, w = some x → x ≤ 1) : jsWeightOrOne w ≤ 1 := by
  cases w with
  | none => simp [jsWeightOrOne]
  | some x =>
    by_cases hx : x = 0
    · simp [jsWeightOrOne, hx]
    · simp only [jsWeightOrOne, hx, if_false]
      exact h x rfl

/-- The weight bound is an invariant of the edge pass, provided every input
edge weight is at most 1. -/
theorem consolidateEdges_weight_le_one (fragments : List KnowledgeGraph)
    (h : ∀ frag ∈ fragments, ∀ e ∈ frag.edges, ∀ x : ℚ, e.weight = some x → x ≤ 1) :
    ∀ q ∈ consolidateEdges fragments, ∀ x : ℚ, q.2.weight = some x → x ≤ 1 := by
  unfold consolidateEdges
  refine List.foldlRecOn
    (motive := fun (m : List (String × KnowledgeGraphEdge)) =>
      ∀ q ∈ m, ∀ x : ℚ, q.2.weight = some x → x ≤ 1)
    fragments _ [] ?_ ?_
  · intro q hq
    exact absurd hq (List.not_mem_nil _)
  · intro m hm frag hfrag
    refine List.foldlRecOn
      (motive := fun (m2 : List (String × KnowledgeGraphEdge)) =>
        ∀ q ∈ m2, ∀ x : ℚ, q.2.weight = some x → x ≤ 1)
      frag.edges _ m hm ?_
    intro m2 hm2 edge hedge
    intro q hq
    unfold consolidateEdgesStep at hq
    cases hsk : findNodeKey edge.source fragments with
    | none => simp only [hsk] at hq; exact hm2 q hq
    | some sourceKey =>
      cases htk : findNodeKey edge.target fragments with
      | none => simp only [hsk, htk] at hq; exact hm2 q hq
      | some targetKey =>
        simp only [hsk, htk] at hq
        by_cases hmem : (m2.lookup (sourceKey ++ "_" ++ edge.relationship ++ "_" ++ targetKey)).isSome
        · rw [if_pos hmem] at hq
          rcases List.mem_map.mp hq with ⟨q0, hq0, hfq⟩
          by_cases hqk : q0.1 = sourceKey ++ "_" ++ edge.relationship ++ "_" ++ targetKey
          · rw [if_pos hqk] at hfq
            subst hfq
            intro x hx
            rcases Option.some.inj hx with rfl
            exact min_le_right _ _
          · rw [if_neg hqk] at hfq
            subst hfq
            exact hm2 q0 hq0
        · rw [if_neg hmem] at hq
          rcases List.mem_append.mp hq with hq0 | hq0
          · exact hm2 q hq0
          · rcases List.mem_singleton.mp hq0 with rfl
            intro x hx
            rcases Option.some.inj hx with rfl
            exact jsWeightOrOne_le_one edge.weight (h frag hfrag edge hedge)

/-- C2, amended: *when every input edge weight is at most 1* (the spec's
stated convention for weights), every consolidated edge weight is at most
1, and one duplicate-merge step — the update `min((w || 1) + 0.1, 1)` —
never decreases a stored weight that is at most 1, and keeps it at most
1. -/
theorem claim_C2_amended_weight_bound (fragments : List KnowledgeGraph)
    (h : ∀ frag ∈ fragments, ∀ e ∈ frag.edges, ∀ x : ℚ, e.weight = some x → x ≤ 1) :
    (∀ e ∈ (consolidateKnowledgeGraph fragments).edges,
       ∀ x : ℚ, e.weight = some x → x ≤ 1) ∧
    (∀ w : ℚ, w ≤ 1 →
       w ≤ min (jsWeightOrOne (some w) + 1 / 10) 1 ∧
       min (jsWeightOrOne (some w) + 1 / 10) 1 ≤ 1) := by
  constructor
  · intro e he
    simp only [consolidateKnowledgeGraph] at he
    rcases List.mem_map.mp he with ⟨q, hq, hqe⟩
    subst hqe
    exact consolidateEdges_weight_le_one fragments h q hq
  · intro w hw
    constructor
    · refine le_min ?_ hw
      by_cases hzero : w = 0
      · subst hzero
        norm_num [jsWeightOrOne]
      · simp only [jsWeightOrOne, hzero, if_false]
        linarith
    · exact min_le_right _ _

/-- C2, counterexample to the claim as stated: with an input edge of weight
2 the consolidated weight is 2 > 1 after one observation, and drops to 1
after a second observation of the same key — the bound fails and merging a
duplicate can decrease the weight. -/
theorem claim_C2_counterexample :
    (consolidateKnowledgeGraph [fragWeightTwo]).edges
      = [⟨"a_T", "b_T", "likes", some 2⟩] ∧
    ¬ ((2 : ℚ) ≤ 1) ∧
    (consolidateKnowledgeGraph [fragWeightTwoTwice]).edges
      = [⟨"a_T", "b_T", "likes", some 1⟩] ∧
    (1 : ℚ) < 2 := by
  refine ⟨by with_unfolding_all decide, by norm_num,
    by with_unfolding_all decide, by norm_num⟩

/-- The fragments of the C2 witness: the same weight-(1/2) edge in two
fragments, merged to 3/5. -/
def fragsHalfTwice : List KnowledgeGraph :=
  [⟨[kgNodeA, kgNodeB], [⟨"n1", "n2", "likes", some (1/2)⟩]⟩,
   ⟨[kgNodeA, kgNodeB], [⟨"n1", "n2", "likes", some (1/2)⟩]⟩]

/-- Witness for the amended C2 on a concrete input with weights ≤ 1. -/
theorem claim_C2_amended_weight_bound_witness : (3 / 5 : ℚ) ≤ 1 :=
  (claim_C2_amended_weight_bound fragsHalfTwice (by with_unfolding_all decide)).1
    ⟨"a_T", "b_T", "likes", some (3/5)⟩ (by with_unfolding_all decide) (3/5) rfl

/-- C10: a falsy input weight — explicitly 0 as well as absent — is
promoted to 1 on first insertion: the consolidated edge carries
`edge.weight || 1`, and that expression maps both `undefined` and `0`
to 1 (while keeping any truthy weight, e.g. 1/2). -/
theorem claim_C10_falsy_weight_promoted (w : Option ℚ) :
    (consolidateKnowledgeGraph
       [⟨[kgNodeA, kgNodeB], [⟨"n1", "n2", "likes", w⟩]⟩]).edges
      = [⟨"a_T", "b_T", "likes", some (jsWeightOrOne w)⟩] ∧
    jsWeightOrOne (some 0) = 1 ∧
    jsWeightOrOne none = 1 ∧
    jsWeightOrOne (some (1/2)) = 1/2 := by
  refine ⟨rfl, rfl, rfl, by norm_num [jsWeightOrOne]⟩

/-! ### Concrete instances for the C4 / C5 witnesses -/

/-- A fragment whose nodes survive the noise filter. -/
def fragDental : KnowledgeGraph :=
  ⟨[⟨"1", "Dental implant", "Procedure", []⟩,
    ⟨"2", "Implant crown", "Product", []⟩],
   [⟨"1", "2", "rel", some 1⟩]⟩

/-- Witness for C4 at a concrete fragment: the surviving edge's endpoints
are node ids of the filtered fragment, and the consolidated edge's
endpoints are ids of consolidated nodes. -/
theorem claim_C4_witness :
    (((∃ node ∈ (cleanKnowledgeGraph fragDental).nodes, node.id = "1") ∧
      (∃ node ∈ (cleanKnowledgeGraph fragDental).nodes, node.id = "2"))) ∧
    (((∃ node ∈ (consolidateKnowledgeGraph [fragDental]).nodes,
         node.id = "dental implant_Procedure") ∧
      (∃ node ∈ (consolidateKnowledgeGraph [fragDental]).nodes,
         node.id = "implant crown_Product"))) :=
  ⟨claim_C4_referential_integrity.1 fragDental ⟨"1", "2", "rel", some 1⟩
     (by with_unfolding_all decide),
   claim_C4_referential_integrity.2 [fragDental]
     ⟨"dental implant_Procedure", "implant crown_Product", "rel", some 1⟩
     (by with_unfolding_all decide)⟩

/-- The two-fragment C5 witness input: `Foo`/`Bar` and `foo`/`Bar`. -/
def fragFoo : KnowledgeGraph := ⟨[⟨"x1", "Foo", "Bar", []⟩], []⟩

def fragfoo : KnowledgeGraph := ⟨[⟨"x2", "foo", "Bar", []⟩], []⟩

/-- Witness for C5: the spec's own example, `{label:"Foo", type:"Bar"}` and
`{label:"foo", type:"Bar"}` in different fragments, yields exactly one
consolidated node with id `"foo_Bar"`. -/
theorem claim_C5_witness :
    ((consolidateKnowledgeGraph [fragFoo, fragfoo]).nodes.filter
       (fun node => node.id = jsToLower "Foo" ++ "_" ++ "Bar")).length = 1 ∧
    nodeKey ⟨"x2", "foo", "Bar", []⟩ = jsToLower "Foo" ++ "_" ++ "Bar" :=
  claim_C5_node_identity_collapse [fragFoo, fragfoo] fragFoo fragfoo
    ⟨"x1", "Foo", "Bar", []⟩ ⟨"x2", "foo", "Bar", []⟩
    (by decide) (by decide) (by decide) (by decide) (by decide) (by decide)

/-! ## C8 — the 0.3 relevance threshold gate -/

/-- `reduceBest` stays within the candidate pool. -/
theorem reduceBest_mem (l : List (String × ℚ)) :
    ∀ b : String × ℚ, reduceBest b l ∈ b :: l := by
  induction l with
  | nil => intro b; simp [reduceBest]
  | cons c rest ih =>
    intro b
    simp only [reduceBest]
    by_cases hb : b.2 < c.2
    · rw [if_pos hb]
      rcases List.mem_cons.mp (ih c) with h | h
      · rw [h]
        exact List.mem_cons_of_mem _ (List.mem_cons_self _ _)
      · exact List.mem_cons_of_mem _ (List.mem_cons_of_mem _ h)
    · rw [if_neg hb]
      rcases List.mem_cons.mp (ih b) with h | h
      · rw [h]
        exact List.mem_cons_self _ _
      · exact List.mem_cons_of_mem _ (List.mem_cons_of_mem _ h)

/-- `reduceBest` dominates every candidate's score. -/
theorem reduceBest_le (l : List (String × ℚ)) :
    ∀ b : String × ℚ, ∀ x ∈ b :: l, x.2 ≤ (reduceBest b l).2 := by
  induction l with
  | nil =>
    intro b x hx
    rcases List.mem_cons.mp hx with rfl | h
    · exact le_refl _
    · exact absurd h (List.not_mem_nil _)
  | cons c rest ih =>
    intro b x hx
    have hstep : b.2 ≤ (if b.2 < c.2 then c else b).2 ∧
        c.2 ≤ (if b.2 < c.2 then c else b).2 := by
      by_cases hb : b.2 < c.2
      · rw [if_pos hb]
        exact ⟨le_of_lt hb, le_refl _⟩
      · rw [if_neg hb]
        exact ⟨le_refl _, le_of_not_lt hb⟩
    rcases List.mem_cons.mp hx with rfl | hx2
    · calc x.2 ≤ (if x.2 < c.2 then c else x).2 := hstep.1
        _ ≤ _ := ih _ _ (List.mem_cons_self _ _)
    · rcases List.mem_cons.mp hx2 with rfl | hx3
      · calc x.2 ≤ (if b.2 < x.2 then x else b).2 := hstep.2
          _ ≤ _ := ih _ _ (List.mem_cons_self _ _)
      · exact ih _ _ (List.mem_cons_of_mem _ hx3)

/-- C8: the threshold gate.  In a non-final round with a fresh query whose
search succeeded and surfaced candidates, the selected candidate `best` is
a maximum-score member of the scored pool, and it is enqueued for the next
round exactly when its score strictly exceeds 3/10 = 0.3 (otherwise the
queue is left unchanged). -/
theorem claim_C8_relevance_threshold_gate (env : ApiEnv) (cfg : AppConfig)
    (currentRound : Nat) (q : String) (s : SerpState) (n : Nat)
    (results : List SerpResult) (best : String × ℚ)
    (hc : env.isCancelled n = false)
    (hp : s.processed.contains q = false)
    (hs : env.searchSerp q = Except.ok results)
    (hd : collectDiscovered (s.processed ++ [q]) results ≠ [])
    (hr : currentRound < cfg.autoConfig.serpExplorationDepth)
    (hb : selectBestScored
      (scoreDiscovered env (collectDiscovered (s.processed ++ [q]) results)).1
      = some best) :
    best ∈ (scoreDiscovered env (collectDiscovered (s.processed ++ [q]) results)).1 ∧
    (∀ x ∈ (scoreDiscovered env (collectDiscovered (s.processed ++ [q]) results)).1,
      x.2 ≤ best.2) ∧
    (processQuery env cfg currentRound q s n).1.toOption.map (fun t => t.queue)
      = some (if (3 : ℚ) / 10 < best.2 then s.queue ++ [best.1] else s.queue) := by
  have hmax : ∀ sq : List (String × ℚ), selectBestScored sq = some best →
      best ∈ sq ∧ ∀ x ∈ sq, x.2 ≤ best.2 := by
    intro sq hsq
    cases sq with
    | nil => exact absurd hsq (by simp [selectBestScored])
    | cons hd0 tl0 =>
      simp only [selectBestScored, Option.some.injEq] at hsq
      subst hsq
      exact ⟨reduceBest_mem tl0 hd0, reduceBest_le tl0 hd0⟩
  rcases hmax _ hb with ⟨hbm, hble⟩
  refine ⟨hbm, hble, ?_⟩
  simp only [processQuery, hc, hp, hs, Bool.false_eq_true, if_false]
  rw [if_pos (And.intro hd hr)]
  rw [hb]
  by_cases hgate : (3 : ℚ) / 10 < best.2
  · simp only [hgate, if_true, Except.toOption, Option.map]
  · simp only [hgate, if_false, Except.toOption, Option.map]

/-- Environment for the C8 witness: one search result surfacing one
candidate, scored at a fixed relevance. -/
def envGate (score : ℚ) : ApiEnv :=
  { isCancelled := fun _ => false
    queryExpansion := Except.ok ""
    searchSerp := fun _ => Except.ok [⟨"u1", some ["d1"]⟩]
    scoreQueryRelevance := fun _ => Except.ok score
    scrape := fun _ => Except.error "nieosiągalne"
    extractGraph := fun _ _ => Except.error "nieosiągalne"
    synthesize := fun _ => Except.ok ""
    execSeconds := 0 }

/-- Config for the C8 witness: depth 2, so round 1 is non-final. -/
def cfgGate : AppConfig :=
  { project := ⟨"ce", "bc", "pl", "PL"⟩
    urlSource := UrlSource.auto
    manualUrls := []
    autoConfig := ⟨5, 10, 2⟩
    models := ⟨"m1", "m2"⟩ }

/-- Witness for C8: a sole candidate scoring 0.31 is enqueued, one scoring
exactly 0.3 is not. -/
theorem claim_C8_witness :
    (processQuery (envGate ((31 : ℚ) / 100)) cfgGate 1 "q" ⟨[], [], []⟩ 0).1.toOption.map
        (fun t => t.queue) = some ["d1"] ∧
    (processQuery (envGate ((3 : ℚ) / 10)) cfgGate 1 "q" ⟨[], [], []⟩ 0).1.toOption.map
        (fun t => t.queue) = some [] :=
  ⟨((claim_C8_relevance_threshold_gate (envGate ((31 : ℚ) / 100)) cfgGate 1 "q"
      ⟨[], [], []⟩ 0 [⟨"u1", some ["d1"]⟩] ("d1", (31 : ℚ) / 100)
      rfl rfl rfl (by decide) (by decide) rfl).2.2).trans
        (by norm_num),
   ((claim_C8_relevance_threshold_gate (envGate ((3 : ℚ) / 10)) cfgGate 1 "q"
      ⟨[], [], []⟩ 0 [⟨"u1", some ["d1"]⟩] ("d1", (3 : ℚ) / 10)
      rfl rfl rfl (by decide) (by decide) rfl).2.2).trans
        (by norm_num)⟩

/-! ## C1 — queries enqueued per SERP round -/

/-- One processed query enqueues at most one query for the next round. -/
theorem processQuery_queue_growth (env : ApiEnv) (cfg : AppConfig)
    (currentRound : Nat) (q : String) (s : SerpState) (n : Nat) (s' : SerpState)
    (h : (processQuery env cfg currentRound q s n).1 = Except.ok s') :
    s'.queue.length ≤ s.queue.length + 1 := by
  unfold processQuery at h
  by_cases hc : env.isCancelled n = true
  · rw [if_pos hc] at h
    simp at h
  · rw [if_neg hc] at h
    by_cases hp : s.processed.contains q = true
    · rw [if_pos hp] at h
      simp only [Except.ok.injEq] at h
      subst h
      omega
    · rw [if_neg hp] at h
      cases hs : env.searchSerp q with
      | error e =>
        simp only [hs, Except.ok.injEq] at h
        subst h
        simp only []
        omega
      | ok results =>
        simp only [hs] at h
        by_cases hcond : collectDiscovered (s.processed ++ [q]) results ≠ [] ∧
            currentRound < cfg.autoConfig.serpExplorationDepth
        · rw [if_pos hcond] at h
          cases hsel : selectBestScored
              (scoreDiscovered env (collectDiscovered (s.processed ++ [q]) results)).1 with
          | none =>
            simp only [hsel, Except.ok.injEq] at h
            subst h
            simp only []
            omega
          | some best =>
            simp only [hsel] at h
            by_cases hgate : (3 : ℚ) / 10 < best.2
            · rw [if_pos hgate] at h
              simp only [Except.ok.injEq] at h
              subst h
              simp only [List.length_append, List.length_cons, List.length_nil]
              omega
            · rw [if_neg hgate] at h
              simp only [Except.ok.injEq] at h
              subst h
              simp only []
              omega
        · rw [if_neg hcond] at h
          simp only [Except.ok.injEq] at h
          subst h
          simp only []
          omega

/-- A full round adds at most one enqueued query per snapshot entry. -/
theorem processQueries_queue_growth (env : ApiEnv) (cfg : AppConfig)
    (currentRound : Nat) :
    ∀ (qs : List String) (s : SerpState) (n : Nat) (s' : SerpState),
      (processQueries env cfg currentRound qs s n).1 = Except.ok s' →
      s'.queue.length ≤ s.queue.length + qs.length := by
  intro qs
  induction qs with
  | nil =>
    intro s n s' h
    unfold processQueries at h
    simp only [Except.ok.injEq] at h
    subst h
    omega
  | cons q rest ih =>
    intro s n s' h
    unfold processQueries at h
    rcases hq : processQuery env cfg currentRound q s n with ⟨r1, n1, ls1⟩
    cases r1 with
    | error e =>
      rw [hq] at h
      simp at h
    | ok s1 =>
      rw [hq] at h
      dsimp only at h
      rcases hrest : processQueries env cfg currentRound rest s1 n1 with ⟨r2, n2, ls2⟩
      rw [hrest] at h
      dsimp only at h
      have h2 : (processQueries env cfg currentRound rest s1 n1).1 = Except.ok s' := by
        rw [hrest]
        exact h
      have htail := ih s1 n1 s' h2
      have hhead := processQuery_queue_growth env cfg currentRound q s n s1 (by rw [hq])
      simp only [List.length_cons]
      omega

/-- C1, amended: each query processed in a round enqueues **at most one**
candidate into `queriesToProcess`; consequently a round that starts with an
empty next-round queue (as every round does, after the snapshot-and-clear)
enqueues at most as many new queries as it has snapshot entries — not at
most one per round. -/
theorem claim_C1_amended_enqueue_bound (env : ApiEnv) (cfg : AppConfig)
    (currentRound : Nat) :
    (∀ (q : String) (s : SerpState) (n : Nat) (s' : SerpState),
       (processQuery env cfg currentRound q s n).1 = Except.ok s' →
       s'.queue.length ≤ s.queue.length + 1) ∧
    (∀ (qs : List String) (s : SerpState) (n : Nat) (s' : SerpState),
       s.queue = [] →
       (processQueries env cfg currentRound qs s n).1 = Except.ok s' →
       s'.queue.length ≤ qs.length) := by
  constructor
  · intro q s n s' h
    exact processQuery_queue_growth env cfg currentRound q s n s' h
  · intro qs s n s' hempty h
    have := processQueries_queue_growth env cfg currentRound qs s n s' h
    rw [hempty] at this
    simpa using this

/-- Environment for the C1 counterexample: two initial queries, each of
whose SERP results surfaces its own above-threshold candidate. -/
def envTwoThreads : ApiEnv :=
  { isCancelled := fun _ => false
    queryExpansion := Except.ok "- q1\n- q2"
    searchSerp := fun q =>
      if q = "q1" then Except.ok [⟨"u1", some ["d1"]⟩]
      else if q = "q2" then Except.ok [⟨"u2", some ["d2"]⟩]
      else if q = "d1" then Except.ok [⟨"u3", none⟩]
      else if q = "d2" then Except.ok [⟨"u4", none⟩]
      else Except.error "brak wyników"
    scoreQueryRelevance := fun _ => Except.ok (mkRat 1 2)
    scrape := fun _ => Except.error "nieosiągalne"
    extractGraph := fun _ _ => Except.error "nieosiągalne"
    synthesize := fun _ => Except.ok ""
    execSeconds := 0 }

/-- C1, counterexample to the claim as stated: in round 1 of a
depth-2 exploration with two initial queries, **two** queries are enqueued
for round 2 (one per processed query), and round 2 indeed processes both. -/
theorem claim_C1_counterexample :
    (processQueries envTwoThreads cfgGate 1 ["q1", "q2"]
        ⟨[], [], []⟩ 0).1.toOption.map (fun t => t.queue) = some ["d1", "d2"] ∧
    ¬ ((["d1", "d2"] : List String).length ≤ 1) ∧
    (serpRounds envTwoThreads cfgGate 2 1
        ⟨[], ["q1", "q2"], []⟩ 0).1.toOption.map (fun t => t.processed)
      = some ["q1", "q2", "d1", "d2"] := by
  refine ⟨by with_unfolding_all decide, by decide, by with_unfolding_all decide⟩

/-- Witness for the amended C1 at the same concrete environment. -/
theorem claim_C1_amended_enqueue_bound_witness :
    (SerpState.mk ["u1"] ["d1"] ["q1"]).queue.length
      ≤ (SerpState.mk [] [] []).queue.length + 1 ∧
    (SerpState.mk ["u1", "u2"] ["d1", "d2"] ["q1", "q2"]).queue.length
      ≤ (["q1", "q2"] : List String).length :=
  ⟨(claim_C1_amended_enqueue_bound envTwoThreads cfgGate 1).1 "q1"
     ⟨[], [], []⟩ 0 ⟨["u1"], ["d1"], ["q1"]⟩ (by with_unfolding_all rfl),
   (claim_C1_amended_enqueue_bound envTwoThreads cfgGate 1).2 ["q1", "q2"]
     ⟨[], [], []⟩ 0 ⟨["u1", "u2"], ["d1", "d2"], ["q1", "q2"]⟩ rfl
     (by with_unfolding_all rfl)⟩

/-! ## C3 — cancellation handling -/

/-- Environment in which the cancellation flag is raised from the first
poll on. -/
def envCancelled : ApiEnv :=
  { isCancelled := fun _ => true
    queryExpansion := Except.ok "- q"
    searchSerp := fun _ => Except.error "nieosiągalne"
    scoreQueryRelevance := fun _ => Except.error "nieosiągalne"
    scrape := fun _ => Except.error "nieosiągalne"
    extractGraph := fun _ _ => Except.error "nieosiągalne"
    synthesize := fun _ => Except.ok ""
    execSeconds := 0 }

/-- C3, amended: an observed cancellation raises the distinguished
`Process cancelled by user` condition with a WARNING log at every
checkpoint (round start in SERP exploration, batch start in fetching,
document start in extraction), and the orchestrator's catch swallows
exactly that condition, resolving with no results and an INFO
cancellation notice — but only after its catch-all has logged ONE
ERROR-level entry wrapping the cancellation message. -/
theorem claim_C3_amended_cancellation :
    (∀ (env : ApiEnv) (cfg : AppConfig) (n n1 : Nat) (ls : List LogEvent),
       processBody env cfg n = (Except.error cancelMsg, n1, ls) →
       processTopicalMap env cfg n = (Except.ok none, n1,
         ⟨LogLevel.INFO, "Rozpoczynanie procesu generowania mapy tematycznej..."⟩ ::
           ls ++
           [⟨LogLevel.ERROR, "Błąd podczas przetwarzania: " ++ cancelMsg⟩,
            ⟨LogLevel.INFO, "Proces został anulowany przez użytkownika."⟩])) ∧
    (∀ (env : ApiEnv) (cfg : AppConfig) (remaining currentRound : Nat)
       (s : SerpState) (n : Nat), env.isCancelled n = true →
       serpRounds env cfg (remaining + 1) currentRound s n
         = (Except.error cancelMsg, n + 1,
            [⟨LogLevel.WARNING,
              "Proces zatrzymany przez użytkownika podczas eksploracji SERP"⟩])) ∧
    (∀ (env : ApiEnv) (total : Nat) (u : String) (us : List String)
       (i n : Nat), env.isCancelled n = true →
       scrapeLoop env total (u :: us) i n
         = (Except.error cancelMsg, n + 1,
            [⟨LogLevel.WARNING,
              "Proces zatrzymany przez użytkownika podczas pobierania treści"⟩])) ∧
    (∀ (env : ApiEnv) (total : Nat) (url content : String)
       (docs : List (String × String)) (i n : Nat), env.isCancelled n = true →
       extractLoop env total ((url, content) :: docs) i n
         = (Except.error cancelMsg, n + 1,
            [⟨LogLevel.WARNING,
              "Proces zatrzymany przez użytkownika podczas ekstrakcji grafów"⟩])) := by
  refine ⟨?_, ?_, ?_, ?_⟩
  · intro env cfg n n1 ls h
    unfold processTopicalMap
    rw [h]
    dsimp only
    rw [if_pos rfl]
  · intro env cfg remaining currentRound s n h
    unfold serpRounds
    dsimp only
    rw [if_pos h]
  · intro env total u us i n h
    unfold scrapeLoop
    dsimp only
    rw [if_pos h]
  · intro env total url content docs i n h
    unfold extractLoop
    dsimp only
    rw [if_pos h]

/-- C3, counterexample to the claim as stated: with the flag raised, the
run does terminate at the first checkpoint and resolves as a cancellation
(no error escapes), yet the log stream contains an ERROR-level entry for
the cancellation — `Błąd podczas przetwarzania: Process cancelled by
user` — contradicting "no ERROR-level log entry is emitted". -/
theorem claim_C3_counterexample :
    (processTopicalMap envCancelled cfgGate 0).1 = Except.ok none ∧
    (processTopicalMap envCancelled cfgGate 0).2.2.filter
        (fun l => l.level == LogLevel.ERROR)
      = [⟨LogLevel.ERROR, "Błąd podczas przetwarzania: Process cancelled by user"⟩] := by
  constructor
  · with_unfolding_all rfl
  · with_unfolding_all decide

/-- Witness for the amended C3 at concrete inputs: the orchestrator's
translation of a cancelled pipeline, and the three phase checkpoints. -/
theorem claim_C3_amended_cancellation_witness :
    processTopicalMap envCancelled cfgGate 0 = (Except.ok none, 1,
      ⟨LogLevel.INFO, "Rozpoczynanie procesu generowania mapy tematycznej..."⟩ ::
        [⟨LogLevel.INFO, "Rozpoczynanie automatycznego pozyskiwania URL-i..."⟩,
         ⟨LogLevel.INFO, "Generowanie 5 zapytań na podstawie \"ce\""⟩,
         ⟨LogLevel.SUCCESS, "Wygenerowano 1 początkowych zapytań."⟩,
         ⟨LogLevel.WARNING,
           "Proces zatrzymany przez użytkownika podczas eksploracji SERP"⟩] ++
        [⟨LogLevel.ERROR, "Błąd podczas przetwarzania: " ++ cancelMsg⟩,
         ⟨LogLevel.INFO, "Proces został anulowany przez użytkownika."⟩]) ∧
    serpRounds envCancelled cfgGate (1 + 1) 1 ⟨[], ["q"], []⟩ 0
      = (Except.error cancelMsg, 0 + 1,
         [⟨LogLevel.WARNING,
           "Proces zatrzymany przez użytkownika podczas eksploracji SERP"⟩]) ∧
    scrapeLoop envCancelled 1 ["u"] 0 5
      = (Except.error cancelMsg, 5 + 1,
         [⟨LogLevel.WARNING,
           "Proces zatrzymany przez użytkownika podczas pobierania treści"⟩]) ∧
    extractLoop envCancelled 1 [("u", "c")] 0 7
      = (Except.error cancelMsg, 7 + 1,
         [⟨LogLevel.WARNING,
           "Proces zatrzymany przez użytkownika podczas ekstrakcji grafów"⟩]) :=
  ⟨claim_C3_amended_cancellation.1 envCancelled cfgGate 0 1
     [⟨LogLevel.INFO, "Rozpoczynanie automatycznego pozyskiwania URL-i..."⟩,
      ⟨LogLevel.INFO, "Generowanie 5 zapytań na podstawie \"ce\""⟩,
      ⟨LogLevel.SUCCESS, "Wygenerowano 1 początkowych zapytań."⟩,
      ⟨LogLevel.WARNING,
        "Proces zatrzymany przez użytkownika podczas eksploracji SERP"⟩]
     (by with_unfolding_all rfl),
   claim_C3_amended_cancellation.2.1 envCancelled cfgGate 1 1 ⟨[], ["q"], []⟩ 0 rfl,
   claim_C3_amended_cancellation.2.2.1 envCancelled 1 "u" [] 0 5 rfl,
   claim_C3_amended_cancellation.2.2.2 envCancelled 1 "u" "c" [] 0 7 rfl⟩

/-! ## C7 — cleaner heading recognition -/

/-- Whether the scan of `cleanMarkdown` recognizes a heading anywhere:
an Atx line, or ANY line whose successor is a pure `=`/`-` underline
(the code does not require that line to be nonblank). -/
def anyHeading : List String → Bool
  | [] => false
  | [line] => isAtxHeading (jsTrim line)
  | line :: nextLine :: rest =>
    isAtxHeading (jsTrim line) || isSetextUnderline nextLine ||
      anyHeading (nextLine :: rest)

/-- The claim's (spec's) Setext notion, written from its words: *a text
line* immediately followed by a line of only `=` or only `-`.  Kept
separate from the code-side scan so the two notions can be compared. -/
def specSetextAt (line nextLine : String) : Bool :=
  jsTrim line ≠ "" && isSetextUnderline nextLine

/-- The claim's notion of "some heading occurs": an Atx heading, or a
`specSetextAt` pair.  Written from the claim's words, not from the code. -/
def specAnyHeading : List String → Bool
  | [] => false
  | [line] => isAtxHeading (jsTrim line)
  | line :: nextLine :: rest =>
    isAtxHeading (jsTrim line) || specSetextAt line nextLine ||
      specAnyHeading (nextLine :: rest)

/-- With no recognized heading the scan retains nothing. -/
theorem cleanMarkdownScan_no_heading :
    ∀ (ls : List String) (blocks cb : List String),
      anyHeading ls = false → cleanMarkdownScan ls blocks cb false = blocks := by
  intro ls
  induction ls with
  | nil =>
    intro blocks cb _
    simp [cleanMarkdownScan, flushBlock]
  | cons line rest ih =>
    intro blocks cb h
    cases rest with
    | nil =>
      have hatx : isAtxHeading (jsTrim line) = false := by
        simpa [anyHeading] using h
      simp [cleanMarkdownScan, hatx, flushBlock]
    | cons nextLine rest2 =>
      rw [anyHeading] at h
      rcases Bool.or_eq_false_iff.mp h with ⟨h1, htail⟩
      rcases Bool.or_eq_false_iff.mp h1 with ⟨hatx, hsetext⟩
      rw [cleanMarkdownScan]
      simp only [hatx, hsetext, Bool.or_self, Bool.false_eq_true, if_false]
      exact ih blocks cb htail

/-- With no recognized heading, `cleanMarkdown` falls back to the first
2000 characters of the raw input, trimmed. -/
theorem cleanMarkdown_no_heading (s : String)
    (h : anyHeading (jsSplitLines s) = false) :
    cleanMarkdown s = jsTrim (jsSubstring s 0 2000) := by
  by_cases hs : s = ""
  · subst hs
    decide
  · simp only [cleanMarkdown, if_neg hs]
    rw [cleanMarkdownScan_no_heading _ _ _ h]
    have h0 : jsLength (jsTrim (String.intercalate "\n\n" ([] : List String))) = 0 := by
      decide
    rw [if_pos h0]

/-- Splitting a newline-free replicated list produces a single part. -/
theorem splitOnNewline_replicate (c : Char) (hc : c ≠ '\n') (n : Nat) :
    splitOnNewline (List.replicate n c) = [List.replicate n c] := by
  induction n with
  | zero => rfl
  | succ n ih =>
    rw [List.replicate_succ, splitOnNewline, ih]
    dsimp only
    rw [if_neg hc]

/-- Trimming touches nothing on a replicated non-whitespace list. -/
theorem jsTrim_replicate (c : Char) (hc : c.isWhitespace = false) (n : Nat) :
    jsTrim (String.mk (List.replicate n c)) = String.mk (List.replicate n c) := by
  have hdrop : ∀ m : Nat, (List.replicate m c).dropWhile Char.isWhitespace
      = List.replicate m c := by
    intro m
    cases m with
    | zero => rfl
    | succ m => rw [List.replicate_succ, List.dropWhile_cons, hc]; simp
  unfold jsTrim
  simp only []
  rw [hdrop, List.reverse_replicate, hdrop, List.reverse_replicate]

/-- A replicated `x`-line is no Atx heading. -/
theorem isAtxHeading_replicate_x (n : Nat) :
    isAtxHeading (String.mk (List.replicate n 'x')) = false := by
  cases n with
  | zero => rfl
  | succ n =>
    rw [List.replicate_succ]
    rw [isAtxHeading]
    simp [countLeading]

/-- The 3000-character heading-free input of the claim. -/
def longNoHeading : String := String.mk (List.replicate 3000 'x')

/-- C7, amended: the scan keeps exactly the heading-opened blocks, where a
Setext heading is ANY line (a blank one included) whose successor consists
solely of `=` or solely of `-`; concretely, noise before the first heading
is dropped, Setext titles keep their underline, a heading-free input falls
back to its first 2000 characters trimmed, and the 3000-character
heading-free input yields exactly its first 2000 characters. -/
theorem claim_C7_amended_cleaner :
    cleanMarkdown "noise\n# Title\ncontent\n" = "# Title\ncontent" ∧
    cleanMarkdown "Title\n===\ncontent" = "Title\n===\ncontent" ∧
    (∀ s : String, anyHeading (jsSplitLines s) = false →
       cleanMarkdown s = jsTrim (jsSubstring s 0 2000)) ∧
    cleanMarkdown longNoHeading = String.mk (List.replicate 2000 'x') := by
  refine ⟨by decide, by decide, cleanMarkdown_no_heading, ?_⟩
  have hdata : (String.mk (List.replicate 3000 'x')).data
      = List.replicate 3000 'x' := rfl
  have hsplit : jsSplitLines longNoHeading = [longNoHeading] := by
    unfold jsSplitLines longNoHeading
    rw [hdata, splitOnNewline_replicate 'x' (by decide) 3000]
    rfl
  have htrim : jsTrim longNoHeading = longNoHeading :=
    jsTrim_replicate 'x' (by decide) 3000
  have hno : anyHeading (jsSplitLines longNoHeading) = false := by
    rw [hsplit]
    show isAtxHeading (jsTrim longNoHeading) = false
    rw [htrim]
    exact isAtxHeading_replicate_x 3000
  rw [cleanMarkdown_no_heading _ hno]
  have hsub : jsSubstring longNoHeading 0 2000
      = String.mk (List.replicate 2000 'x') := by
    unfold jsSubstring longNoHeading
    rw [hdata, List.take_replicate]
    norm_num
  rw [hsub, jsTrim_replicate 'x' (by decide) 2000]

/-- C7, counterexample to the claim as stated: the input
`"abc\n\n---\nstuff"` contains no heading in the claim's sense (no Atx
line, and the only underline follows a *blank* line, not a text line), so
the claim requires the trimmed first-2000-characters fallback — but the
code treats the blank line plus `---` as a Setext heading and returns
`"---\nstuff"`, discarding `"abc"`. -/
theorem claim_C7_counterexample :
    specAnyHeading (jsSplitLines "abc\n\n---\nstuff") = false ∧
    cleanMarkdown "abc\n\n---\nstuff" = "---\nstuff" ∧
    jsTrim (jsSubstring "abc\n\n---\nstuff" 0 2000) = "abc\n\n---\nstuff" ∧
    ("---\nstuff" : String) ≠ "abc\n\n---\nstuff" := by
  refine ⟨by decide, by decide, by decide, by decide⟩

/-- Witness for the amended C7 fallback clause at a concrete heading-free
input. -/
theorem claim_C7_amended_cleaner_witness :
    cleanMarkdown "hello world" = jsTrim (jsSubstring "hello world" 0 2000) :=
  claim_C7_amended_cleaner.2.2.1 "hello world" (by decide)

/-! ## C9 — token-budget truncation -/

/-- Complete characterization of `lastIndexOfAux`: either `-1` with no
occurrence, or `i + k` where `k` indexes the rightmost occurrence. -/
theorem lastIndexOfAux_spec (c : Char) :
    ∀ (l : List Char) (i : Nat),
      (lastIndexOfAux c l i = -1 ∧ ∀ j : Nat, l.get? j ≠ some c) ∨
      (∃ k : Nat, lastIndexOfAux c l i = (i : Int) + (k : Int) ∧
        l.get? k = some c ∧ ∀ j : Nat, k < j → l.get? j ≠ some c) := by
  intro l
  induction l with
  | nil =>
    intro i
    left
    refine ⟨rfl, ?_⟩
    intro j
    simp
  | cons x xs ih =>
    intro i
    rcases ih (i + 1) with ⟨h1, h2⟩ | ⟨k, hk1, hk2, hk3⟩
    · by_cases hx : x = c
      · right
        refine ⟨0, ?_, ?_, ?_⟩
        · rw [lastIndexOfAux]
          simp only [h1]
          rw [if_neg (by simp), if_pos hx]
          simp
        · rw [List.get?_cons_zero, hx]
        · intro j hj
          cases j with
          | zero => exact absurd hj (by omega)
          | succ j2 =>
            rw [List.get?_cons_succ]
            exact h2 j2
      · left
        refine ⟨?_, ?_⟩
        · rw [lastIndexOfAux]
          simp only [h1]
          rw [if_neg (by simp), if_neg hx]
        · intro j
          cases j with
          | zero =>
            rw [List.get?_cons_zero]
            simp [hx]
          | succ j2 =>
            rw [List.get?_cons_succ]
            exact h2 j2
    · right
      refine ⟨k + 1, ?_, ?_, ?_⟩
      · rw [lastIndexOfAux]
        simp only [hk1]
        rw [if_pos (by push_cast; omega)]
        push_cast
        omega
      · rw [List.get?_cons_succ]
        exact hk2
      · intro j hj
        cases j with
        | zero => exact absurd hj (by omega)
        | succ j2 =>
          rw [List.get?_cons_succ]
          exact hk3 j2 (by omega)

/-- Unfolding of `truncateContentByTokens` on over-budget content. -/
theorem truncateContentByTokens_over (content : String) (maxTokens : Nat)
    (h : maxTokens * 4 < jsLength content) :
    truncateContentByTokens content maxTokens
      = String.mk
          ((if (((maxTokens * 4 : Nat) : ℚ) * 9 / 10 : ℚ)
              < ((lastIndexOfAux ' ' (content.data.take (maxTokens * 4)) 0 : Int) : ℚ) then
              (content.data.take (maxTokens * 4)).take
                (lastIndexOfAux ' ' (content.data.take (maxTokens * 4)) 0).toNat
            else content.data.take (maxTokens * 4)) ++ "...".data) := by
  have hempty : content ≠ "" := by
    intro he
    rw [he] at h
    have h0 : jsLength ("" : String) = 0 := rfl
    omega
  unfold truncateContentByTokens
  rw [if_neg hempty]
  dsimp only
  rw [if_neg (not_le.mpr h)]

/-- C9, amended: content at or under the 4-characters-per-token budget is
returned unchanged with no marker; longer content becomes a prefix of at
most the budget followed by `"..."`, where the cut is either a hard cut at
exactly the budget (in which case no space lies in the final tenth of the
budget) or at the last space of the truncated prefix, which then lies
strictly inside the final tenth of the budget — not, in general, at the
nearest word boundary. -/
theorem claim_C9_amended_truncation (content : String) (maxTokens : Nat) :
    (jsLength content ≤ maxTokens * 4 →
       truncateContentByTokens content maxTokens = content) ∧
    (maxTokens * 4 < jsLength content →
       ∃ k : Nat, k ≤ maxTokens * 4 ∧
         truncateContentByTokens content maxTokens
           = String.mk (content.data.take k ++ "...".data) ∧
         ((k = maxTokens * 4 ∧
            ∀ j : Nat, 9 * (maxTokens * 4) < 10 * j → j < maxTokens * 4 →
              content.data.get? j ≠ some ' ') ∨
          (content.data.get? k = some ' ' ∧
            (∀ j : Nat, k < j → j < maxTokens * 4 →
               content.data.get? j ≠ some ' ') ∧
            9 * (maxTokens * 4) < 10 * k))) := by
  constructor
  · intro h
    unfold truncateContentByTokens
    by_cases hempty : content = ""
    · rw [if_pos hempty, hempty]
    · rw [if_neg hempty]
      dsimp only
      rw [if_pos h]
  · intro h
    have hMlt : maxTokens * 4 < content.data.length := h
    rcases lastIndexOfAux_spec ' ' (content.data.take (maxTokens * 4)) 0 with
      ⟨h1, h2⟩ | ⟨k, hk1, hk2, hk3⟩
    · have hcond : ¬ ((((maxTokens * 4 : Nat) : ℚ) * 9 / 10 : ℚ)
          < ((lastIndexOfAux ' ' (content.data.take (maxTokens * 4)) 0 : Int) : ℚ)) := by
        rw [h1]
        intro hlt
        have hge : (0 : ℚ) ≤ ((maxTokens * 4 : Nat) : ℚ) * 9 / 10 := by positivity
        push_cast at hlt hge
        linarith
      refine ⟨maxTokens * 4, le_refl _, ?_, Or.inl ⟨rfl, ?_⟩⟩
      · rw [truncateContentByTokens_over content maxTokens h, if_neg hcond]
      · intro j _ hjM hspj
        exact h2 j (by rw [List.get?_take hjM]; exact hspj)
    · simp only [Nat.cast_zero, zero_add] at hk1
      have hklen : k < maxTokens * 4 := by
        rcases List.get?_eq_some.mp hk2 with ⟨hlt, _⟩
        rw [List.length_take] at hlt
        omega
      have hsp : content.data.get? k = some ' ' := by
        rw [← List.get?_take hklen]
        exact hk2
      by_cases hcond : (((maxTokens * 4 : Nat) : ℚ) * 9 / 10 : ℚ) < (((k : Nat) : Int) : ℚ)
      · refine ⟨k, le_of_lt hklen, ?_, Or.inr ⟨hsp, ?_, ?_⟩⟩
        · rw [truncateContentByTokens_over content maxTokens h, hk1, if_pos hcond]
          rw [Int.toNat_natCast, List.take_take, min_eq_left (le_of_lt hklen)]
        · intro j hkj hjM hspj
          exact hk3 j hkj (by rw [List.get?_take hjM]; exact hspj)
        · have hq : (9 * (maxTokens * 4) : ℚ) < 10 * k := by
            push_cast at hcond ⊢
            linarith
          exact_mod_cast hq
      · refine ⟨maxTokens * 4, le_refl _, ?_, Or.inl ⟨rfl, ?_⟩⟩
        · rw [truncateContentByTokens_over content maxTokens h, hk1, if_neg hcond]
        · intro j h9 hjM hspj
          have hmem : (content.data.take (maxTokens * 4)).get? j = some ' ' := by
            rw [List.get?_take hjM]
            exact hspj
          have hjk : j ≤ k := by
            by_contra hgt
            exact hk3 j (by omega) hmem
          have hq : (10 * k : ℚ) ≤ 9 * (maxTokens * 4) := by
            have := not_lt.mp hcond
            push_cast at this ⊢
            linarith
          have hqn : 10 * k ≤ 9 * (maxTokens * 4) := by exact_mod_cast hq
          omega

/-- `lastIndexOf` misses on a replicated different character. -/
theorem lastIndexOfAux_replicate (c x : Char) (hx : x ≠ c) :
    ∀ (n i : Nat), lastIndexOfAux c (List.replicate n x) i = -1 := by
  intro n
  induction n with
  | zero => intro i; rfl
  | succ n ih =>
    intro i
    rw [List.replicate_succ, lastIndexOfAux]
    simp only [ih]
    rw [if_neg (by simp), if_neg hx]

/-- The C9 counterexample content: one two-letter word, then a single
128002-character word. -/
def wordCutInput : String := String.mk ('a' :: ' ' :: List.replicate 128002 'b')

/-- C9, counterexample to the claim as stated: the input is longer than the
128000-character budget and contains a word boundary (the space at index
1), yet the code cuts at index 128000, in the middle of the long `b`-run —
not at a word boundary — because the only space lies outside the final
tenth of the budget. -/
theorem claim_C9_counterexample :
    truncateContentByTokens wordCutInput 32000
      = String.mk ('a' :: ' ' :: (List.replicate 127998 'b' ++ "...".data)) ∧
    wordCutInput.data.get? 1 = some ' ' ∧
    wordCutInput.data.get? 127999 = some 'b' ∧
    wordCutInput.data.get? 128000 = some 'b' ∧
    ¬ (jsLength wordCutInput ≤ 32000 * 4) := by
  have hdata : wordCutInput.data = 'a' :: ' ' :: List.replicate 128002 'b' := rfl
  have hlen : jsLength wordCutInput = 128004 := by
    show wordCutInput.data.length = 128004
    rw [hdata, List.length_cons, List.length_cons, List.length_replicate]
  have hover : 32000 * 4 < jsLength wordCutInput := by
    rw [hlen]
    norm_num
  have htake : wordCutInput.data.take (32000 * 4)
      = 'a' :: ' ' :: List.replicate 127998 'b' := by
    rw [hdata, show (32000 * 4 : Nat) = 127999 + 1 by norm_num,
      List.take_succ_cons, show (127999 : Nat) = 127998 + 1 by norm_num,
      List.take_succ_cons, List.take_replicate]
    norm_num
  refine ⟨?_, ?_, ?_, ?_, ?_⟩
  · rw [truncateContentByTokens_over wordCutInput 32000 hover, htake]
    have hrep : lastIndexOfAux ' ' (List.replicate 127998 'b') 2 = -1 :=
      lastIndexOfAux_replicate ' ' 'b' (by decide) 127998 2
    have haux : lastIndexOfAux ' ' ('a' :: ' ' :: List.replicate 127998 'b') 0 = 1 := by
      rw [lastIndexOfAux, lastIndexOfAux]
      simp only [hrep]
      norm_num
    rw [haux]
    rw [if_neg (by push_cast; norm_num)]
    rw [List.cons_append, List.cons_append]
  · rw [hdata]
    rfl
  · rw [hdata, show (127999 : Nat) = 127997 + 1 + 1 by norm_num,
      List.get?_cons_succ, List.get?_cons_succ, List.get?_eq_getElem?,
      List.getElem?_replicate]
    norm_num
  · rw [hdata, show (128000 : Nat) = 127998 + 1 + 1 by norm_num,
      List.get?_cons_succ, List.get?_cons_succ, List.get?_eq_getElem?,
      List.getElem?_replicate]
    norm_num
  · rw [hlen]
    norm_num

/-- Witness for the amended C9: the under-budget clause at `"hi"`, and the
over-budget clause at a 27-character content with a 12-character budget. -/
theorem claim_C9_amended_truncation_witness :
    truncateContentByTokens "hi" 32000 = "hi" ∧
    (∃ k : Nat, k ≤ 3 * 4 ∧
       truncateContentByTokens "hello world this is content" 3
         = String.mk (("hello world this is content").data.take k ++ "...".data) ∧
       ((k = 3 * 4 ∧
          ∀ j : Nat, 9 * (3 * 4) < 10 * j → j < 3 * 4 →
            ("hello world this is content").data.get? j ≠ some ' ') ∨
        (("hello world this is content").data.get? k = some ' ' ∧
          (∀ j : Nat, k < j → j < 3 * 4 →
             ("hello world this is content").data.get? j ≠ some ' ') ∧
          9 * (3 * 4) < 10 * k))) :=
  ⟨(claim_C9_amended_truncation "hi" 32000).1 (by decide),
   (claim_C9_amended_truncation "hello world this is content" 3).2 (by decide)⟩
